import Mathlib

/-!
# photo_organiser: target-path resolution and deduplication

A shallow embedding of `main.go`.  Go strings are lists of characters, the
filesystem is a finite map seen as a function from path to node, and every
library routine the program calls (`path/filepath`, `strings`, `fmt`, `os`,
`io`, `time`, `encoding/hex`) is modelled by a function of the same name.
The two libraries whose results depend on file contents in a way the program
never inspects (`crypto/md5` and `goexif`) are parameters, collected in `Lib`.
-/

set_option autoImplicit false

namespace PhotoOrganiser

/-! ## Strings -/

/-- Go `string`, as the list of its characters. -/
abbrev Str := List Char

/-- File contents: a list of byte values. -/
abbrev Bytes := List Nat

/-- The one-character decimal digit of `d` (for `d < 10`). -/
def digitChar (d : Nat) : Char := Char.ofNat (48 + d)

/-- Decimal digits of `n`, most significant first, prepended to `acc`;
`fuel` bounds the number of digits produced. -/
def digitsAux : Nat → Nat → Str → Str
  | 0, _, acc => acc
  | fuel + 1, n, acc =>
    if n < 10 then digitChar n :: acc
    else digitsAux fuel (n / 10) (digitChar (n % 10) :: acc)

/-- The verb `%d` of `fmt.Sprintf` on a non-negative integer (`strconv.Itoa`). -/
def itoa (n : Nat) : Str := digitsAux (n + 1) n []

/-- The helper `appendInt(b, x, width)` of package `time`: the decimal form of
`x`, zero-padded on the left to at least `width` digits, with a leading minus
sign for a negative `x`. -/
def appendInt (x : Int) (width : Nat) : Str :=
  let ds := itoa x.natAbs
  let padded := List.replicate (width - ds.length) '0' ++ ds
  if x < 0 then '-' :: padded else padded

/-- Go `strings.TrimSuffix`: `s` without the trailing `suffix` when `s` ends
with it, `s` itself otherwise. -/
def TrimSuffix (s suffix : Str) : Str :=
  if suffix.isSuffixOf s then s.take (s.length - suffix.length) else s

/-- Go `strings.Join(elems, "/")`. -/
def joinSep : List Str → Str
  | [] => []
  | [e] => e
  | e :: es => e ++ '/' :: joinSep es

/-- Go `encoding/hex`: the two lower-case hexadecimal digits of one byte value. -/
def hexDigit (d : Nat) : Char :=
  if d < 10 then Char.ofNat (48 + d) else Char.ofNat (87 + d)

/-- Go `hex.EncodeToString`. -/
def hexEncodeToString : Bytes → Str
  | [] => []
  | b :: bs => hexDigit (b % 256 / 16) :: hexDigit (b % 16) :: hexEncodeToString bs

/-! ## `path/filepath` (Unix) -/

/-- Scan of `filepath.Ext`, from the last character towards the first: `rev` is
the still unscanned part of the path, reversed, and `acc` the part already
scanned.  The scan stops without result at a separator and returns the suffix
that starts at the first dot it meets. -/
def extScan : List Char → Str → Str
  | [], _ => []
  | c :: rev, acc =>
    if c = '/' then []
    else if c = '.' then '.' :: acc
    else extScan rev (c :: acc)

/-- Go `filepath.Ext`: the suffix beginning at the final dot in the final
element of `path`, empty if there is no dot. -/
def Ext (path : Str) : Str := extScan path.reverse []

/-- Go `filepath.Base`: the last element of `path`, trailing separators removed
first; `"."` for the empty path and `"/"` for a path of separators only. -/
def Base (path : Str) : Str :=
  if path = [] then ['.']
  else
    let stripped := (path.reverse.dropWhile (· = '/'))
    let last := (stripped.takeWhile (· ≠ '/')).reverse
    if last = [] then ['/'] else last

/-- Split a path at its separators. -/
def splitSep : Str → List Str
  | [] => [[]]
  | c :: cs =>
    if c = '/' then [] :: splitSep cs
    else
      match splitSep cs with
      | [] => [[c]]
      | e :: es => (c :: e) :: es

/-- One step of `filepath.Clean` on the stack of elements kept so far (last
element first): `..` removes the preceding element if that is not itself
`..`, is dropped at the root, and is kept otherwise; `.` and empty elements
are dropped. -/
def cleanStep (rooted : Bool) (stack : List Str) (e : Str) : List Str :=
  if e = [] ∨ e = ['.'] then stack
  else if e = ['.', '.'] then
    match stack with
    | [] => if rooted then [] else [e]
    | top :: rest => if top = ['.', '.'] then e :: stack else rest
  else e :: stack

/-- Whether a path begins at the root (`os.IsPathSeparator(path[0])`). -/
def isRooted : Str → Bool
  | c :: _ => c = '/'
  | [] => false

/-- The elements that `filepath.Clean` keeps of a path, last element first. -/
def cleanStack (path : Str) : List Str :=
  (splitSep path).foldl (cleanStep (isRooted path)) []

/-- The path that `filepath.Clean` writes for the elements it kept: the
elements joined by separators, after the root if the path is rooted, and `.`
if that is empty. -/
def renderStack (rooted : Bool) (stack : List Str) : Str :=
  if rooted then '/' :: joinSep stack.reverse
  else if joinSep stack.reverse = [] then ['.'] else joinSep stack.reverse

/-- Go `filepath.Clean`: the shortest path equivalent to `path` by purely
lexical processing. -/
def Clean (path : Str) : Str := renderStack (isRooted path) (cleanStack path)

/-- Go `filepath.Join`: the empty leading elements are skipped, the rest are
joined with separators and cleaned; the result is empty when every element is. -/
def Join (elem : List Str) : Str :=
  match elem.dropWhile (· = []) with
  | [] => []
  | es => Clean (joinSep es)

/-- Go `filepath.Dir`: all but the last element of `path`, cleaned. -/
def Dir (path : Str) : Str :=
  Clean (path.reverse.dropWhile (· ≠ '/')).reverse

/-! ## `time` -/

/-- Go `time.Time`, as far as the program observes it: the instant, in seconds
and nanoseconds since January 1 of year 1, 00:00:00 UTC, and the offset (in
seconds east of UTC) of the location the time is presented in. -/
structure Time where
  sec : Int
  nsec : Nat
  offset : Int
  deriving DecidableEq, Repr

/-- The zero value of `time.Time`. -/
def Time.zero : Time := { sec := 0, nsec := 0, offset := 0 }

/-- Go `Time.IsZero`: the instant is January 1, year 1, 00:00:00 UTC. -/
def Time.IsZero (t : Time) : Bool := t.sec == 0 && t.nsec == 0

/-- Year, month and day of the proleptic Gregorian calendar of the day that
lies `days` days after January 1 of year 1. -/
def civilFromDays (days : Int) : Int × Nat × Nat :=
  let z := days + 306
  let era := z / 146097
  let doe := (z - era * 146097).toNat
  let yoe := (doe - doe / 1460 + doe / 36524 - doe / 146096) / 365
  let doy := doe - (365 * yoe + yoe / 4 - yoe / 100)
  let mp := (5 * doy + 2) / 153
  let d := doy - (153 * mp + 2) / 5 + 1
  let m := if mp < 10 then mp + 3 else mp - 9
  let y := (yoe : Int) + era * 400
  (if m ≤ 2 then y + 1 else y, m, d)

/-- Go `Time.Date`: year, month and day in which the time occurs, in its
location. -/
def Time.Date (t : Time) : Int × Nat × Nat :=
  civilFromDays ((t.sec + t.offset) / 86400)

/-- The layout `"2006/01/02"` applied to a calendar date: year zero-padded to
four digits, month and day to two, separated by slashes. -/
def formatDate (date : Int × Nat × Nat) : Str :=
  appendInt date.1 4 ++ '/' :: (appendInt date.2.1 2 ++ '/' :: appendInt date.2.2 2)

/-- Go `t.Format("2006/01/02")`. -/
def Time.Format (t : Time) : Str := formatDate t.Date

/-! ## Errors and the filesystem -/

/-- Go `error` values the program can hold: those it makes itself with
`errors.New`, the `*fs.PathError` of package `os`, and errors of other
libraries. -/
inductive GoError where
  | errorsNew (msg : String)
  | pathError (op : String) (path : Str) (reason : String)
  | other (msg : String)
  deriving DecidableEq, Repr

/-- A regular file: its bytes, whether `os.Open` succeeds on it, and the offset
from which reading it fails, if any. -/
structure File where
  data : Bytes
  openable : Bool
  readErrAt : Option Nat
  deriving DecidableEq, Repr

/-- What a path names: a regular file, a directory, or a regular file out of
reach, one that exists but that `os.Stat`, `os.Open` and `os.Create` cannot
get at (a directory on the way to it cannot be searched). -/
inductive Node where
  | file (f : File)
  | dir
  | locked (f : File)
  deriving DecidableEq, Repr

/-- The filesystem: what each path names, `none` where nothing exists. -/
abbrev FS := Str → Option Node

/-- What reading an open file to its end yields: the bytes read, and the error
that ended the reading (`none` for a clean end of file). -/
structure FileStream where
  bytes : Bytes
  err : Option GoError
  deriving DecidableEq, Repr

/-- The decoded metadata of `goexif`, as far as the program observes it: the
pair its method `DateTime()` returns. -/
structure Exif where
  DateTime : Time × Option GoError

/-- The libraries whose computation the program does not depend on: the MD5
digest of `crypto/md5` and the decoder `exif.Decode` of `goexif`. -/
structure Lib where
  md5Sum : Bytes → Bytes
  exifDecode : FileStream → Except GoError Exif

/-- The path itself, its parent, the parent of that, and so on up to the root
or the current directory. -/
def ancestors : Nat → Str → List Str
  | 0, path => [path]
  | fuel + 1, path =>
    if Dir path = path then [path] else path :: ancestors fuel (Dir path)

/-- Whether a node is a regular file, within reach or not. -/
def isFile : Option Node → Bool
  | some (.file _) => true
  | some (.locked _) => true
  | _ => false

/-- Go `os.Stat`, reduced to its error: `none` when something within reach
exists at `path`.  The call fails with `permission denied` on a file out of
reach, with `not a directory` on a path that runs through a regular file, and
with `no such file or directory` where nothing exists. -/
def osStat (fs : FS) (path : Str) : Option GoError :=
  match fs path with
  | some (.locked _) => some (.pathError "stat" path "permission denied")
  | some _ => none
  | none =>
    if (ancestors path.length (Dir path)).any (fun a => isFile (fs a)) then
      some (.pathError "stat" path "not a directory")
    else some (.pathError "stat" path "no such file or directory")

/-- Go `os.IsNotExist`: whether the error reports that a file or directory does
not exist. -/
def isNotExist : GoError → Bool
  | .pathError _ _ reason => reason = "no such file or directory"
  | _ => false

/-- Go `os.Open`: fails on a missing file, on one out of reach and on one that
cannot be opened; a directory opens but cannot be read. -/
def osOpen (fs : FS) (path : Str) : Except GoError FileStream :=
  match fs path with
  | none => .error (.pathError "open" path "no such file or directory")
  | some (.locked _) => .error (.pathError "open" path "permission denied")
  | some .dir => .ok { bytes := [], err := some (.pathError "read" path "is a directory") }
  | some (.file f) =>
    if f.openable then
      match f.readErrAt with
      | none => .ok { bytes := f.data, err := none }
      | some k => .ok { bytes := f.data.take k,
                        err := some (.pathError "read" path "input/output error") }
    else .error (.pathError "open" path "permission denied")

/-- Go `os.MkdirAll`: creates the directory `path` along with any necessary
parents; fails, creating nothing, when `path` or one of its parents exists and
is not a directory. -/
def osMkdirAll (fs : FS) (path : Str) : FS × Option GoError :=
  let as := ancestors path.length path
  if as.any (fun a => isFile (fs a)) then
    (fs, some (.pathError "mkdir" path "not a directory"))
  else
    (fun q => if q ∈ as ∧ fs q = none then some .dir else fs q, none)

/-- Go `os.Create`: creates or truncates the named file and returns it opened
for writing (here: its path); fails when `path` is a directory or a file out
of reach, or its parent is not a directory. -/
def osCreate (fs : FS) (path : Str) : FS × Except GoError Str :=
  match fs path with
  | some .dir => (fs, .error (.pathError "open" path "is a directory"))
  | some (.locked _) => (fs, .error (.pathError "open" path "permission denied"))
  | some (.file f) =>
    (fun q => if q = path then some (.file { f with data := [] }) else fs q, .ok path)
  | none =>
    if fs (Dir path) = some .dir then
      (fun q => if q = path then
          some (.file { data := [], openable := true, readErrAt := none })
        else fs q, .ok path)
    else (fs, .error (.pathError "open" path "no such file or directory"))

/-- The filesystem in which the file at `path` holds `bytes` and everything
else is as in `fs`. -/
def writeFile (fs : FS) (path : Str) (bytes : Bytes) : FS :=
  fun q =>
    if q = path then
      match fs path with
      | some (.file f) => some (.file { f with data := bytes })
      | other => other
    else fs q

/-- Go `io.Copy(dst, src)` on two results of `os.Create` and `os.Open`: a nil
file on either side is an error; otherwise everything read from `src` is
written to `dst`, and the error is the one that ended the reading. -/
def ioCopy (fs : FS) (dst : Except GoError Str) (src : Except GoError FileStream) :
    FS × Option GoError :=
  match dst, src with
  | .ok path, .ok stream => (writeFile fs path stream.bytes, stream.err)
  | _, _ => (fs, some (.other "invalid argument"))

/-! ## The program -/

/-- The calls by which `copyFileIfRequired` reaches the filesystem. -/
inductive OsCall where
  | stat (path : Str)
  | mkdirAll (path : Str)
  | openFile (path : Str)
  | create (path : Str)
  | copy
  deriving DecidableEq, Repr

/-- The result of a function that may change the filesystem: the filesystem it
leaves, the error it returns, and the calls it made, oldest first. -/
structure Effect where
  fs : FS
  err : Option GoError
  calls : List OsCall

/-- Source `createDirIfNotExist`: the directories are made only when `os.Stat`
reports that `dir` does not exist; after any other result of `os.Stat` the
function returns nil. -/
def createDirIfNotExist (fs : FS) (dir : Str) : Effect :=
  match osStat fs dir with
  | some statErr =>
    if isNotExist statErr then
      match osMkdirAll fs dir with
      | (fs1, some err) => { fs := fs1, err := some err, calls := [.stat dir, .mkdirAll dir] }
      | (fs1, none) => { fs := fs1, err := none, calls := [.stat dir, .mkdirAll dir] }
    else { fs := fs, err := none, calls := [.stat dir] }
  | none => { fs := fs, err := none, calls := [.stat dir] }

/-- Source `copyFileIfRequired`.  The failures of `os.Open` and `os.Create` are
only logged, so the copy goes on with a nil file. -/
def copyFileIfRequired (fs : FS) (srcFilepath dstFilepath : Str) : Effect :=
  if srcFilepath = dstFilepath then
    { fs := fs, err := some (.errorsNew "Not copying - file already exists"), calls := [] }
  else
    let made := createDirIfNotExist fs (Dir dstFilepath)
    match made.err with
    | some err => { fs := made.fs, err := some err, calls := made.calls }
    | none =>
      let original := osOpen made.fs srcFilepath
      let created := osCreate made.fs dstFilepath
      let copied := ioCopy created.1 created.2 original
      { fs := copied.1, err := copied.2,
        calls := made.calls ++ [.openFile srcFilepath, .create dstFilepath, .copy] }

/-- Source `hashFileMD5`: the hexadecimal MD5 digest of the file's content, or
the empty string and the error when the file cannot be opened or read. -/
def hashFileMD5 (lib : Lib) (fs : FS) (filePath : Str) : Str × Option GoError :=
  match osOpen fs filePath with
  | .error err => ([], some err)
  | .ok file =>
    match file.err with
    | some err => ([], some err)
    | none => (hexEncodeToString ((lib.md5Sum file.bytes).take 16), none)

/-- Source `getTimeFromMediaFile`.  A file whose metadata cannot be decoded
yields the zero time and a nil error. -/
def getTimeFromMediaFile (lib : Lib) (fs : FS) (filename : Str) : Time × Option GoError :=
  match osOpen fs filename with
  | .error err => (Time.zero, some err)
  | .ok imgFile =>
    match lib.exifDecode imgFile with
    | .error _ => (Time.zero, none)
    | .ok x =>
      match x.DateTime with
      | (t, some err) => (t, some err)
      | (t, none) => (t, none)

/-- Source `getTargetDirectoryForFile`: the relative target directory for the
file, from its timestamp. -/
def getTargetDirectoryForFile (lib : Lib) (fs : FS) (filePath : Str) : Str × Option GoError :=
  match getTimeFromMediaFile lib fs filePath with
  | (_, some err) => ([], some err)
  | (t, none) =>
    if t.IsZero then ([], some (.errorsNew "Failed to get time of photo"))
    else (t.Format, none)

/-- The name tried at attempt number `attempt` (the two `fmt.Sprintf` of the
loop of `getTargetFilepath`). -/
def attemptFilename (baseFilename extension : Str) (attempt : Nat) : Str :=
  if attempt > 0 then baseFilename ++ '-' :: (itoa attempt ++ extension)
  else baseFilename ++ extension

/-- The variables of the loop of `getTargetFilepath`, and the list of the paths
it has passed to `os.Stat` so far, oldest first. -/
structure ProbeState where
  attempt : Nat
  foundUniqueFilename : Bool
  foundDuplicateFile : Bool
  targetFilepath : Str
  err : Option GoError
  probes : List Str
  deriving DecidableEq, Repr

/-- The condition of the loop of `getTargetFilepath`. -/
def probeCond (st : ProbeState) : Bool :=
  decide (st.attempt < 99) && !st.foundUniqueFilename && !st.foundDuplicateFile

/-- One turn of the loop of `getTargetFilepath`. -/
def probeStep (lib : Lib) (fs : FS) (baseDir targetDir baseFilename extension md5OfOriginal : Str)
    (st : ProbeState) : ProbeState :=
  let targetFilepath :=
    Join [baseDir, targetDir, attemptFilename baseFilename extension st.attempt]
  let err := osStat fs targetFilepath
  let st1 : ProbeState :=
    { st with targetFilepath := targetFilepath, err := err,
              probes := st.probes ++ [targetFilepath] }
  let st2 : ProbeState :=
    if err = none then
      let hash := (hashFileMD5 lib fs targetFilepath).1
      if hash = md5OfOriginal then { st1 with foundDuplicateFile := true } else st1
    else { st1 with foundUniqueFilename := true }
  { st2 with attempt := st2.attempt + 1 }

/-- The loop of `getTargetFilepath`, run for at most `fuel` turns. -/
def probeLoop (lib : Lib) (fs : FS) (baseDir targetDir baseFilename extension md5OfOriginal : Str) :
    Nat → ProbeState → ProbeState
  | 0, st => st
  | fuel + 1, st =>
    if probeCond st then
      probeLoop lib fs baseDir targetDir baseFilename extension md5OfOriginal fuel
        (probeStep lib fs baseDir targetDir baseFilename extension md5OfOriginal st)
    else st

/-- The state in which `getTargetFilepath` leaves its loop, for a file whose
target directory is `targetDir`.  The loop counts `attempt` up from 0 and
stops at 99, so 99 turns are all it can take. -/
def probeAll (lib : Lib) (fs : FS) (filePath baseDir targetDir : Str) : ProbeState :=
  let extension := Ext filePath
  let baseFilename := TrimSuffix (Base filePath) extension
  let md5OfOriginal := (hashFileMD5 lib fs filePath).1
  probeLoop lib fs baseDir targetDir baseFilename extension md5OfOriginal 99
    { attempt := 0, foundUniqueFilename := false, foundDuplicateFile := false,
      targetFilepath := [], err := none, probes := [] }

/-- Source `getTargetFilepath`. -/
def getTargetFilepath (lib : Lib) (fs : FS) (filePath baseDir : Str) : Str × Option GoError :=
  match getTargetDirectoryForFile lib fs filePath with
  | (_, some err) => ([], some err)
  | (targetDir, none) =>
    let st := probeAll lib fs filePath baseDir targetDir
    if st.foundUniqueFilename then (st.targetFilepath, none)
    else if st.foundDuplicateFile then ([], some (.errorsNew "Found duplicate file"))
    else ([], st.err)

/-- The state the walk threads through: the filesystem, and the calls of
`copyFileIfRequired` made so far (source and destination), oldest first. -/
structure World where
  fs : FS
  copies : List (Str × Str)

/-- Whether a node is a directory (`fileStat.IsDir()`). -/
def isDir : Option Node → Bool
  | some .dir => true
  | _ => false

/-- The function `iterateSourcePath` hands to `filepath.Walk`, called once for
each path of the walk, with the error of the walk at that path. -/
def walkFn (lib : Lib) (targetDir : Str) (w : World) (filePath : Str)
    (walkErr : Option GoError) : World :=
  if walkErr ≠ none then w
  else if osStat w.fs filePath ≠ none then w
  else if isDir (w.fs filePath) then w
  else
    match getTargetFilepath lib w.fs filePath targetDir with
    | (_, some _) => w
    | (targetFilepath, none) =>
      if targetFilepath ≠ [] then
        { fs := (copyFileIfRequired w.fs filePath targetFilepath).fs,
          copies := w.copies ++ [(filePath, targetFilepath)] }
      else w

/-- Source `iterateSourcePath`, on the sequence of paths and walk errors that
`filepath.Walk` delivers. -/
def iterateSourcePath (lib : Lib) (targetDir : Str) (w : World)
    (walk : List (Str × Option GoError)) : World :=
  walk.foldl (fun w entry => walkFn lib targetDir w entry.1 entry.2) w

/-- The path probed at attempt number `attempt` for the source `filePath`
(the `filepath.Join` of the loop of `getTargetFilepath`). -/
def candidatePath (filePath baseDir targetDir : Str) (attempt : Nat) : Str :=
  Join [baseDir, targetDir,
    attemptFilename (TrimSuffix (Base filePath) (Ext filePath)) (Ext filePath) attempt]

/-- The paths `getTargetFilepath` passes to `os.Stat`, in the order of the calls. -/
def probedPaths (lib : Lib) (fs : FS) (filePath baseDir : Str) : List Str :=
  match getTargetDirectoryForFile lib fs filePath with
  | (_, some _) => []
  | (targetDir, none) => (probeAll lib fs filePath baseDir targetDir).probes

/-- The outcomes of a resolution that the specification names. -/
inductive Outcome where
  | Resolved (destinationPath : Str)
  | Duplicate
  | TimestampUnavailable
  | ProbeExhausted
  deriving DecidableEq, Repr

/-- The outcome of the specification that a run of `getTargetFilepath` stands
for, read off the branch by which the function returns. -/
def outcome (lib : Lib) (fs : FS) (filePath baseDir : Str) : Outcome :=
  match getTargetDirectoryForFile lib fs filePath with
  | (_, some _) => .TimestampUnavailable
  | (targetDir, none) =>
    let st := probeAll lib fs filePath baseDir targetDir
    if st.foundUniqueFilename then .Resolved st.targetFilepath
    else if st.foundDuplicateFile then .Duplicate
    else .ProbeExhausted

/-- The candidate of index `i` is found by `os.Stat` and its fingerprint, as the
loop computes it, is not the source's: the case in which the loop moves on to
the next name. -/
def Collides (lib : Lib) (fs : FS) (filePath baseDir targetDir : Str) (i : Nat) : Prop :=
  osStat fs (candidatePath filePath baseDir targetDir i) = none ∧
  (hashFileMD5 lib fs (candidatePath filePath baseDir targetDir i)).1
    ≠ (hashFileMD5 lib fs filePath).1

/-- The variables of the loop after `k` turns that all met a file of another
content. -/
def collidedState (filePath baseDir targetDir : Str) (k : Nat) : ProbeState :=
  { attempt := k, foundUniqueFilename := false, foundDuplicateFile := false,
    targetFilepath := if k = 0 then [] else candidatePath filePath baseDir targetDir (k - 1),
    err := none,
    probes := (List.range k).map (candidatePath filePath baseDir targetDir) }

/-- A file name: a non-empty path element other than `.` and `..`. -/
def IsFileName (name : Str) : Prop :=
  name ≠ [] ∧ '/' ∉ name ∧ name ≠ ['.'] ∧ name ≠ ['.', '.']

/-- The stacks that `filepath.Clean` builds: every element is a non-empty path
element other than `.`, and `..` occurs only in unrooted paths, on top of
nothing but `..`. -/
def GoodStack (rooted : Bool) : List Str → Prop
  | [] => True
  | e :: rest =>
    e ≠ [] ∧ e ≠ ['.'] ∧ '/' ∉ e ∧
    (e = ['.', '.'] → rooted = false ∧ ∀ x ∈ rest, x = ['.', '.']) ∧
    GoodStack rooted rest

/-! ## A small world for the examples -/

/-- A stand-in for the MD5 digest: the first 16 bytes of the content, padded
with zeros. -/
def exDigest (bytes : Bytes) : Bytes := (bytes ++ List.replicate 16 0).take 16

/-- A stand-in for `exif.Decode`: content that starts with the byte 69 carries
the capture day in the three bytes that follow, content that starts with 78
decodes but has no date tag, and nothing else decodes. -/
def exDecode (s : FileStream) : Except GoError Exif :=
  match s.bytes with
  | 69 :: a :: b :: c :: _ =>
    .ok { DateTime :=
      ({ sec := ((a * 65536 + b * 256 + c : Nat) : Int) * 86400, nsec := 0, offset := 0 }, none) }
  | 78 :: _ => .ok { DateTime := (Time.zero, some (.other "exif: tag DateTime is not present")) }
  | _ => .error (.other "exif: failed to find exif intro marker")

/-- The libraries of the examples. -/
def exLib : Lib := { md5Sum := exDigest, exifDecode := exDecode }

/-- A photo taken on 2021-06-15. -/
def photoA : File :=
  { data := [69, 11, 66, 163, 1, 2, 3], openable := true, readErrAt := none }

/-- Another photo taken on 2021-06-15. -/
def photoB : File :=
  { data := [69, 11, 66, 163, 4, 5, 6], openable := true, readErrAt := none }

/-- A photo of 2021-06-15 whose tail cannot be read. -/
def photoBad : File :=
  { data := [69, 11, 66, 163, 1, 2, 3], openable := true, readErrAt := some 5 }

/-- A file without metadata. -/
def notes : File := { data := [104, 105], openable := true, readErrAt := none }

/-- The path of `photoA`. -/
def srcA : Str := "/photos/IMG_0001.JPG".toList

/-- The path of `photoB`. -/
def srcB : Str := "/card/IMG_0001.JPG".toList

/-- The path of `notes`. -/
def srcNotes : Str := "/photos/notes".toList

/-- The destination root of the examples. -/
def outDir : Str := "/out".toList

/-- The sources and an empty destination root. -/
def fsFresh : FS := fun p =>
  if p = srcA then some (.file photoA)
  else if p = srcB then some (.file photoB)
  else if p = srcNotes then some (.file notes)
  else if p = outDir ∨ p = "/".toList then some .dir
  else none

/-- The world after `photoA` has been copied to the path resolved for it. -/
def fsCopied : FS :=
  (copyFileIfRequired fsFresh srcA (getTargetFilepath exLib fsFresh srcA outDir).1).fs

/-- The 99 names tried for `IMG_0001.JPG`, without the extension. -/
def fullNames : List Str :=
  "IMG_0001".toList :: (List.range 98).map (fun i => "IMG_0001-".toList ++ itoa (i + 1))

/-- A world in which the day's directory holds 99 files, under the 99 names
tried for `photoA`, each of a content of its own that is not that of `photoA`. -/
def fsFull : FS := fun p =>
  if p = srcA then some (.file photoA)
  else if "/out/2021/06/15/".toList.isPrefixOf p ∧ ".JPG".toList.isSuffixOf p ∧
      (p.drop 16).take (p.length - 20) ∈ fullNames then
    some (.file { data := 0 :: (p.drop 16).map Char.toNat, openable := true, readErrAt := none })
  else if p = outDir ∨ p = "/".toList ∨ p = "/out/2021".toList ∨ p = "/out/2021/06".toList
      ∨ p = "/out/2021/06/15".toList then some .dir
  else none

/-- A world in which the tail of the photo at `srcA` cannot be read, and the
destination already holds another photo of that day under the same name. -/
def fsBad : FS := fun p =>
  if p = srcA then some (.file photoBad)
  else if p = "/out/2021/06/15/IMG_0001.JPG".toList then some (.file photoB)
  else if p = outDir ∨ p = "/".toList then some .dir
  else none

/-- The path of a photo whose name has no extension. -/
def srcC : Str := "/card/DSC0042".toList

/-- A world with the photo `srcC` and, in the destination, another photo of
that day under the same name. -/
def fsNoExt : FS := fun p =>
  if p = srcC then some (.file photoB)
  else if p = "/out/2021/06/15/DSC0042".toList then some (.file photoA)
  else if p = outDir ∨ p = "/".toList then some .dir
  else none

/-- A photo whose date tag decodes, without error, to the zero time. -/
def photoZero : File :=
  { data := [69, 0, 0, 0, 7, 8, 9], openable := true, readErrAt := none }

/-- The path of `photoZero`. -/
def srcZ : Str := "/photos/OLD.JPG".toList

/-- A world with `photoZero` and an empty destination root. -/
def fsZero : FS := fun p =>
  if p = srcZ then some (.file photoZero)
  else if p = outDir ∨ p = "/".toList then some .dir
  else none

/-- A world in which the destination holds, under the name of `photoA` and out
of reach of `os.Stat`, another photo of that day. -/
def fsLocked : FS := fun p =>
  if p = srcA then some (.file photoA)
  else if p = "/out/2021/06/15/IMG_0001.JPG".toList then some (.locked photoB)
  else if p = outDir ∨ p = "/".toList ∨ p = "/out/2021".toList ∨ p = "/out/2021/06".toList
      ∨ p = "/out/2021/06/15".toList then some .dir
  else none

/-- A world in which the destination holds, under the name of `photoA`, a file
with the bytes of `photoA` that cannot be opened. -/
def fsTwin : FS := fun p =>
  if p = srcA then some (.file photoA)
  else if p = "/out/2021/06/15/IMG_0001.JPG".toList then
    some (.file { data := photoA.data, openable := false, readErrAt := none })
  else if p = outDir ∨ p = "/".toList ∨ p = "/out/2021".toList ∨ p = "/out/2021/06".toList
      ∨ p = "/out/2021/06/15".toList then some .dir
  else none

/-- A world in which the tail of the photo at `srcA` cannot be read, and the
destination holds under the same name another photo that cannot be opened. -/
def fsBothBad : FS := fun p =>
  if p = srcA then some (.file photoBad)
  else if p = "/out/2021/06/15/IMG_0001.JPG".toList then
    some (.file { data := photoB.data, openable := false, readErrAt := none })
  else if p = outDir ∨ p = "/".toList ∨ p = "/out/2021".toList ∨ p = "/out/2021/06".toList
      ∨ p = "/out/2021/06/15".toList then some .dir
  else none

/-! ## The probing loop -/

/-- `os.Stat` succeeds exactly on a file within reach and on a directory. -/
theorem osStat_eq_none_iff (fs : FS) (path : Str) :
    osStat fs path = none ↔ (∃ f, fs path = some (.file f)) ∨ fs path = some .dir := by
  unfold osStat
  rcases h : fs path with _ | n
  · by_cases ha : (ancestors path.length (Dir path)).any (fun a => isFile (fs a)) = true
    · simp [ha]
    · simp [ha]
  · cases n <;> simp

/-- `os.Stat` fails where nothing exists. -/
theorem osStat_of_absent (fs : FS) (path : Str) (h : fs path = none) :
    osStat fs path ≠ none := by
  intro hs
  rcases (osStat_eq_none_iff fs path).1 hs with ⟨f, hf⟩ | hd
  · rw [h] at hf; simp at hf
  · rw [h] at hd; simp at hd

/-- What `os.Stat` finds exists. -/
theorem exists_of_osStat (fs : FS) (path : Str) (h : osStat fs path = none) :
    fs path ≠ none := by
  rcases (osStat_eq_none_iff fs path).1 h with ⟨f, hf⟩ | hd
  · rw [hf]; simp
  · rw [hd]; simp

/-- The result of `os.Stat` on a path that names something depends on that
path alone. -/
theorem osStat_congr (fs1 fs2 : FS) (path : Str) (h : fs1 path = fs2 path)
    (hex : fs2 path ≠ none) : osStat fs1 path = osStat fs2 path := by
  unfold osStat
  rw [h]
  rcases h2 : fs2 path with _ | n
  · exact absurd h2 hex
  · cases n <;> rfl

theorem probeLoop_stop (lib : Lib) (fs : FS) (baseDir targetDir b e m : Str) (fuel : Nat)
    (st : ProbeState) (h : probeCond st = false) :
    probeLoop lib fs baseDir targetDir b e m fuel st = st := by
  cases fuel with
  | zero => rfl
  | succ n => simp [probeLoop, h]

theorem probeCond_collided (filePath baseDir targetDir : Str) (k : Nat) :
    probeCond (collidedState filePath baseDir targetDir k) = decide (k < 99) := by
  simp [probeCond, collidedState]

theorem probeStep_collides (lib : Lib) (fs : FS) (filePath baseDir targetDir : Str) (k : Nat)
    (h : Collides lib fs filePath baseDir targetDir k) :
    probeStep lib fs baseDir targetDir (TrimSuffix (Base filePath) (Ext filePath)) (Ext filePath)
      (hashFileMD5 lib fs filePath).1 (collidedState filePath baseDir targetDir k)
      = collidedState filePath baseDir targetDir (k + 1) := by
  obtain ⟨hstat, hne⟩ := h
  unfold candidatePath at hstat hne
  simp only [probeStep, collidedState, hstat, if_true, if_neg hne]
  simp [List.range_succ, candidatePath]

theorem probeStep_free (lib : Lib) (fs : FS) (filePath baseDir targetDir : Str) (k : Nat)
    (hstat : osStat fs (candidatePath filePath baseDir targetDir k) ≠ none) :
    probeStep lib fs baseDir targetDir (TrimSuffix (Base filePath) (Ext filePath)) (Ext filePath)
      (hashFileMD5 lib fs filePath).1 (collidedState filePath baseDir targetDir k)
      = { attempt := k + 1, foundUniqueFilename := true, foundDuplicateFile := false,
          targetFilepath := candidatePath filePath baseDir targetDir k,
          err := osStat fs (candidatePath filePath baseDir targetDir k),
          probes := (List.range (k + 1)).map (candidatePath filePath baseDir targetDir) } := by
  unfold candidatePath at hstat
  simp only [probeStep, collidedState, if_neg hstat]
  simp [List.range_succ, candidatePath]

theorem probeStep_same (lib : Lib) (fs : FS) (filePath baseDir targetDir : Str) (k : Nat)
    (hstat : osStat fs (candidatePath filePath baseDir targetDir k) = none)
    (hsame : (hashFileMD5 lib fs (candidatePath filePath baseDir targetDir k)).1
      = (hashFileMD5 lib fs filePath).1) :
    probeStep lib fs baseDir targetDir (TrimSuffix (Base filePath) (Ext filePath)) (Ext filePath)
      (hashFileMD5 lib fs filePath).1 (collidedState filePath baseDir targetDir k)
      = { attempt := k + 1, foundUniqueFilename := false, foundDuplicateFile := true,
          targetFilepath := candidatePath filePath baseDir targetDir k,
          err := none,
          probes := (List.range (k + 1)).map (candidatePath filePath baseDir targetDir) } := by
  unfold candidatePath at hstat hsame
  simp only [probeStep, collidedState, hstat, if_true, if_pos hsame]
  simp [List.range_succ, candidatePath]

/-- As long as the candidates collide, the loop runs on: from `k` collisions it
reaches `n` collisions, using up `n - k` turns. -/
theorem probeLoop_run (lib : Lib) (fs : FS) (filePath baseDir targetDir : Str) (n : Nat)
    (hn : n ≤ 99) :
    ∀ (fuel k : Nat), k ≤ n → n - k ≤ fuel →
      (∀ i, k ≤ i → i < n → Collides lib fs filePath baseDir targetDir i) →
      probeLoop lib fs baseDir targetDir (TrimSuffix (Base filePath) (Ext filePath))
          (Ext filePath) (hashFileMD5 lib fs filePath).1 fuel
          (collidedState filePath baseDir targetDir k)
        = probeLoop lib fs baseDir targetDir (TrimSuffix (Base filePath) (Ext filePath))
          (Ext filePath) (hashFileMD5 lib fs filePath).1 (fuel - (n - k))
          (collidedState filePath baseDir targetDir n) := by
  intro fuel
  induction fuel with
  | zero =>
    intro k hk hf _
    have : k = n := by omega
    subst this; simp
  | succ f ih =>
    intro k hk hf hc
    by_cases hkn : k = n
    · subst hkn; simp
    · have hlt : k < n := by omega
      have hstep := probeStep_collides lib fs filePath baseDir targetDir k (hc k (le_refl k) hlt)
      have hcond : probeCond (collidedState filePath baseDir targetDir k) = true := by
        rw [probeCond_collided]; simp; omega
      rw [probeLoop, if_pos hcond, hstep,
        ih (k + 1) (by omega) (by omega) (fun i hi hin => hc i (by omega) hin)]
      congr 1
      omega

/-- Among the first `m` candidates, either all collide or there is a least one
that does not. -/
theorem collides_or_least (lib : Lib) (fs : FS) (filePath baseDir targetDir : Str) (m : Nat) :
    (∀ i, i < m → Collides lib fs filePath baseDir targetDir i) ∨
    ∃ n, n < m ∧ (∀ i, i < n → Collides lib fs filePath baseDir targetDir i) ∧
      ¬ Collides lib fs filePath baseDir targetDir n := by
  induction m with
  | zero => left; intro i hi; omega
  | succ m ih =>
    rcases ih with hall | ⟨n, hn, hlow, hnot⟩
    · by_cases hm : Collides lib fs filePath baseDir targetDir m
      · left
        intro i hi
        rcases Nat.lt_succ_iff_lt_or_eq.1 hi with h | h
        · exact hall i h
        · subst h; exact hm
      · right; exact ⟨m, Nat.lt_succ_self m, hall, hm⟩
    · right; exact ⟨n, Nat.lt_succ_of_lt hn, hlow, hnot⟩

theorem probeAll_eq (lib : Lib) (fs : FS) (filePath baseDir targetDir : Str) :
    probeAll lib fs filePath baseDir targetDir
      = probeLoop lib fs baseDir targetDir (TrimSuffix (Base filePath) (Ext filePath))
          (Ext filePath) (hashFileMD5 lib fs filePath).1 99
          (collidedState filePath baseDir targetDir 0) := rfl

/-- The loop ends at the least candidate at which `os.Stat` fails, having found
a unique file name. -/
theorem probeAll_free (lib : Lib) (fs : FS) (filePath baseDir targetDir : Str) (n : Nat)
    (hn : n < 99) (hlow : ∀ i, i < n → Collides lib fs filePath baseDir targetDir i)
    (hfree : osStat fs (candidatePath filePath baseDir targetDir n) ≠ none) :
    probeAll lib fs filePath baseDir targetDir
      = { attempt := n + 1, foundUniqueFilename := true, foundDuplicateFile := false,
          targetFilepath := candidatePath filePath baseDir targetDir n,
          err := osStat fs (candidatePath filePath baseDir targetDir n),
          probes := (List.range (n + 1)).map (candidatePath filePath baseDir targetDir) } := by
  rw [probeAll_eq, probeLoop_run lib fs filePath baseDir targetDir n (by omega) 99 0 (by omega)
    (by omega) (fun i _ hi => hlow i hi)]
  obtain ⟨f, hf⟩ : ∃ f, 99 - (n - 0) = f + 1 := ⟨98 - n, by omega⟩
  have hcond : probeCond (collidedState filePath baseDir targetDir n) = true := by
    rw [probeCond_collided]; simpa using hn
  rw [hf, probeLoop, if_pos hcond, probeStep_free lib fs filePath baseDir targetDir n hfree]
  exact probeLoop_stop _ _ _ _ _ _ _ _ _ (by simp [probeCond])

/-- The loop ends at the least candidate that `os.Stat` finds with the source's
fingerprint, having found a duplicate. -/
theorem probeAll_same (lib : Lib) (fs : FS) (filePath baseDir targetDir : Str) (n : Nat)
    (hn : n < 99) (hlow : ∀ i, i < n → Collides lib fs filePath baseDir targetDir i)
    (hex : osStat fs (candidatePath filePath baseDir targetDir n) = none)
    (hsame : (hashFileMD5 lib fs (candidatePath filePath baseDir targetDir n)).1
      = (hashFileMD5 lib fs filePath).1) :
    probeAll lib fs filePath baseDir targetDir
      = { attempt := n + 1, foundUniqueFilename := false, foundDuplicateFile := true,
          targetFilepath := candidatePath filePath baseDir targetDir n,
          err := none,
          probes := (List.range (n + 1)).map (candidatePath filePath baseDir targetDir) } := by
  rw [probeAll_eq, probeLoop_run lib fs filePath baseDir targetDir n (by omega) 99 0 (by omega)
    (by omega) (fun i _ hi => hlow i hi)]
  obtain ⟨f, hf⟩ : ∃ f, 99 - (n - 0) = f + 1 := ⟨98 - n, by omega⟩
  have hcond : probeCond (collidedState filePath baseDir targetDir n) = true := by
    rw [probeCond_collided]; simpa using hn
  rw [hf, probeLoop, if_pos hcond, probeStep_same lib fs filePath baseDir targetDir n hex hsame]
  exact probeLoop_stop _ _ _ _ _ _ _ _ _ (by simp [probeCond])

/-- When the 99 candidates all collide, the loop ends after 99 turns with both
flags down and the nil error of the last `os.Stat`. -/
theorem probeAll_exhausted (lib : Lib) (fs : FS) (filePath baseDir targetDir : Str)
    (hall : ∀ i, i < 99 → Collides lib fs filePath baseDir targetDir i) :
    probeAll lib fs filePath baseDir targetDir = collidedState filePath baseDir targetDir 99 := by
  rw [probeAll_eq, probeLoop_run lib fs filePath baseDir targetDir 99 (le_refl _) 99 0 (by omega)
    (by omega) (fun i _ hi => hall i hi)]
  rfl

/-- The three ways in which the loop of `getTargetFilepath` ends. -/
theorem probeAll_cases (lib : Lib) (fs : FS) (filePath baseDir targetDir : Str) :
    (∃ n, n < 99 ∧ (∀ i, i < n → Collides lib fs filePath baseDir targetDir i) ∧
      osStat fs (candidatePath filePath baseDir targetDir n) ≠ none ∧
      probeAll lib fs filePath baseDir targetDir
        = { attempt := n + 1, foundUniqueFilename := true, foundDuplicateFile := false,
            targetFilepath := candidatePath filePath baseDir targetDir n,
            err := osStat fs (candidatePath filePath baseDir targetDir n),
            probes := (List.range (n + 1)).map (candidatePath filePath baseDir targetDir) }) ∨
    (∃ n, n < 99 ∧ (∀ i, i < n → Collides lib fs filePath baseDir targetDir i) ∧
      osStat fs (candidatePath filePath baseDir targetDir n) = none ∧
      (hashFileMD5 lib fs (candidatePath filePath baseDir targetDir n)).1
        = (hashFileMD5 lib fs filePath).1 ∧
      probeAll lib fs filePath baseDir targetDir
        = { attempt := n + 1, foundUniqueFilename := false, foundDuplicateFile := true,
            targetFilepath := candidatePath filePath baseDir targetDir n,
            err := none,
            probes := (List.range (n + 1)).map (candidatePath filePath baseDir targetDir) }) ∨
    ((∀ i, i < 99 → Collides lib fs filePath baseDir targetDir i) ∧
      probeAll lib fs filePath baseDir targetDir = collidedState filePath baseDir targetDir 99) := by
  rcases collides_or_least lib fs filePath baseDir targetDir 99 with hall | ⟨n, hn, hlow, hnot⟩
  · exact Or.inr (Or.inr ⟨hall, probeAll_exhausted lib fs filePath baseDir targetDir hall⟩)
  · by_cases hex : osStat fs (candidatePath filePath baseDir targetDir n) = none
    · have hsame : (hashFileMD5 lib fs (candidatePath filePath baseDir targetDir n)).1
          = (hashFileMD5 lib fs filePath).1 := by
        by_contra hne
        exact hnot ⟨hex, hne⟩
      exact Or.inr (Or.inl ⟨n, hn, hlow, hex, hsame,
        probeAll_same lib fs filePath baseDir targetDir n hn hlow hex hsame⟩)
    · exact Or.inl ⟨n, hn, hlow, hex,
        probeAll_free lib fs filePath baseDir targetDir n hn hlow hex⟩

/-- Turns that are left over when the loop has stopped change nothing. -/
theorem probeLoop_more_fuel (lib : Lib) (fs : FS) (baseDir targetDir b e m : Str) (k : Nat) :
    ∀ (fuel : Nat) (st : ProbeState),
      probeCond (probeLoop lib fs baseDir targetDir b e m fuel st) = false →
      probeLoop lib fs baseDir targetDir b e m (fuel + k) st
        = probeLoop lib fs baseDir targetDir b e m fuel st := by
  intro fuel
  induction fuel with
  | zero =>
    intro st h
    rw [Nat.zero_add]
    exact probeLoop_stop lib fs baseDir targetDir b e m k st h
  | succ f ih =>
    intro st h
    rw [Nat.add_right_comm]
    by_cases hc : probeCond st = true
    · rw [probeLoop, if_pos hc] at h
      rw [probeLoop, if_pos hc, ih _ h, probeLoop, if_pos hc]
    · rw [probeLoop, if_neg hc, probeLoop, if_neg hc]

/-- The 99 turns given to the loop are enough: it stops because its condition
fails, and with more turns it ends in the same state. -/
theorem probeAll_terminates (lib : Lib) (fs : FS) (filePath baseDir targetDir : Str) :
    probeCond (probeAll lib fs filePath baseDir targetDir) = false ∧
    ∀ k, probeLoop lib fs baseDir targetDir (TrimSuffix (Base filePath) (Ext filePath))
          (Ext filePath) (hashFileMD5 lib fs filePath).1 (99 + k)
          (collidedState filePath baseDir targetDir 0)
        = probeAll lib fs filePath baseDir targetDir := by
  have hstop : probeCond (probeAll lib fs filePath baseDir targetDir) = false := by
    rcases probeAll_cases lib fs filePath baseDir targetDir with
      ⟨n, _, _, _, hst⟩ | ⟨n, _, _, _, _, hst⟩ | ⟨_, hst⟩
    · rw [hst]; simp [probeCond]
    · rw [hst]; simp [probeCond]
    · rw [hst]; simp [probeCond, collidedState]
  refine ⟨hstop, fun k => ?_⟩
  rw [probeAll_eq] at hstop ⊢
  exact probeLoop_more_fuel lib fs baseDir targetDir _ _ _ k 99 _ hstop

theorem getTargetDirectoryForFile_of_time (lib : Lib) (fs : FS) (filePath : Str) (t : Time)
    (htime : getTimeFromMediaFile lib fs filePath = (t, none)) (hzero : t.IsZero = false) :
    getTargetDirectoryForFile lib fs filePath = (t.Format, none) := by
  simp [getTargetDirectoryForFile, htime, hzero]

/-- How the value returned by `getTargetFilepath` follows from the outcome. -/
theorem getTargetFilepath_of_outcome (lib : Lib) (fs : FS) (filePath baseDir : Str) :
    (outcome lib fs filePath baseDir = .TimestampUnavailable →
      ∃ e, getTargetFilepath lib fs filePath baseDir = ([], some e)) ∧
    (outcome lib fs filePath baseDir = .Duplicate →
      getTargetFilepath lib fs filePath baseDir = ([], some (.errorsNew "Found duplicate file"))) ∧
    (outcome lib fs filePath baseDir = .ProbeExhausted →
      getTargetFilepath lib fs filePath baseDir = ([], none)) ∧
    (∀ p, outcome lib fs filePath baseDir = .Resolved p →
      getTargetFilepath lib fs filePath baseDir = (p, none)) := by
  unfold outcome getTargetFilepath
  rcases hd : getTargetDirectoryForFile lib fs filePath with ⟨dir, _ | e⟩
  · simp only []
    rcases probeAll_cases lib fs filePath baseDir dir with
      ⟨n, _, _, _, hst⟩ | ⟨n, _, _, _, _, hst⟩ | ⟨_, hst⟩
    · simp [hst]
    · simp [hst]
    · simp [hst, collidedState]
  · simp

/-- A non-empty path returned with a nil error is a resolved one. -/
theorem outcome_of_getTargetFilepath (lib : Lib) (fs : FS) (filePath baseDir p : Str)
    (hp : p ≠ []) (h : getTargetFilepath lib fs filePath baseDir = (p, none)) :
    outcome lib fs filePath baseDir = .Resolved p := by
  unfold getTargetFilepath at h
  unfold outcome
  rcases hd : getTargetDirectoryForFile lib fs filePath with ⟨dir, _ | e⟩
  · rw [hd] at h
    simp only [] at h ⊢
    by_cases hu : (probeAll lib fs filePath baseDir dir).foundUniqueFilename = true
    · simp only [hu, if_true] at h ⊢
      simp only [Prod.mk.injEq, and_true] at h
      rw [h]
    · by_cases hdup : (probeAll lib fs filePath baseDir dir).foundDuplicateFile = true
      · simp [hu, hdup] at h
      · simp only [hu, hdup, if_false] at h
        simp only [Bool.false_eq_true, if_false, Prod.mk.injEq] at h
        exact absurd h.1.symm hp
  · rw [hd] at h
    simp at h

/-- What a resolved outcome says about the loop. -/
theorem outcome_resolved_iff (lib : Lib) (fs : FS) (filePath baseDir p : Str)
    (h : outcome lib fs filePath baseDir = .Resolved p) :
    ∃ targetDir n, getTargetDirectoryForFile lib fs filePath = (targetDir, none) ∧ n < 99 ∧
      (∀ i, i < n → Collides lib fs filePath baseDir targetDir i) ∧
      osStat fs (candidatePath filePath baseDir targetDir n) ≠ none ∧
      p = candidatePath filePath baseDir targetDir n ∧
      probedPaths lib fs filePath baseDir
        = (List.range (n + 1)).map (candidatePath filePath baseDir targetDir) := by
  unfold outcome at h
  unfold probedPaths
  rcases hd : getTargetDirectoryForFile lib fs filePath with ⟨dir, _ | e⟩
  · rw [hd] at h
    simp only [] at h ⊢
    rcases probeAll_cases lib fs filePath baseDir dir with
      ⟨n, hn, hlow, hfree, hst⟩ | ⟨n, _, _, _, _, hst⟩ | ⟨_, hst⟩
    · rw [hst] at h ⊢
      simp only [if_true, Outcome.Resolved.injEq] at h
      exact ⟨dir, n, rfl, hn, hlow, hfree, h.symm, rfl⟩
    · simp [hst] at h
    · simp [hst, collidedState] at h
  · rw [hd] at h
    simp at h

/-! ## Resolution -/

/-- C1, as the code has it: for a source whose capture time is available and
is not the zero time, and whose fingerprint is computed, if `n < 99` is the
least index whose candidate path names no existing file and every candidate
of lower index is found by `os.Stat` and has another fingerprint (the string
`hashFileMD5` returns for it, empty when it cannot be hashed),
`getTargetFilepath` returns the candidate of index `n` (the bare
`basename+ext` for 0, `basename-n+ext` otherwise, under `baseDir/YYYY/MM/DD`)
with a nil error, having probed the candidates 0, 1, ..., `n` in this order
and no other path. -/
theorem getTargetFilepath_least_free (lib : Lib) (fs : FS) (filePath baseDir : Str) (t : Time)
    (h : Str) (n : Nat)
    (htime : getTimeFromMediaFile lib fs filePath = (t, none)) (hzero : t.IsZero = false)
    (hhash : hashFileMD5 lib fs filePath = (h, none))
    (hn : n < 99)
    (hfree : fs (candidatePath filePath baseDir t.Format n) = none)
    (hlow : ∀ i, i < n → osStat fs (candidatePath filePath baseDir t.Format i) = none ∧
      (hashFileMD5 lib fs (candidatePath filePath baseDir t.Format i)).1 ≠ h) :
    getTargetFilepath lib fs filePath baseDir
      = (Join [baseDir, formatDate t.Date,
          if n = 0 then TrimSuffix (Base filePath) (Ext filePath) ++ Ext filePath
          else TrimSuffix (Base filePath) (Ext filePath) ++ '-' :: (itoa n ++ Ext filePath)],
         none) ∧
    probedPaths lib fs filePath baseDir
      = (List.range (n + 1)).map (fun i =>
          Join [baseDir, formatDate t.Date,
            if i = 0 then TrimSuffix (Base filePath) (Ext filePath) ++ Ext filePath
            else TrimSuffix (Base filePath) (Ext filePath) ++ '-' :: (itoa i ++ Ext filePath)]) := by
  have hdir := getTargetDirectoryForFile_of_time lib fs filePath t htime hzero
  have hlow2 : ∀ i, i < n → Collides lib fs filePath baseDir t.Format i := by
    intro i hi
    have := hlow i hi
    rw [Collides, hhash]
    exact this
  have hst := probeAll_free lib fs filePath baseDir t.Format n hn hlow2
    (osStat_of_absent fs _ hfree)
  have hcand : ∀ i, candidatePath filePath baseDir t.Format i
      = Join [baseDir, formatDate t.Date,
          if i = 0 then TrimSuffix (Base filePath) (Ext filePath) ++ Ext filePath
          else TrimSuffix (Base filePath) (Ext filePath) ++ '-' :: (itoa i ++ Ext filePath)] := by
    intro i
    by_cases hi : i = 0
    · subst hi; simp [candidatePath, attemptFilename, Time.Format]
    · have : i > 0 := Nat.pos_of_ne_zero hi
      simp [candidatePath, attemptFilename, Time.Format, hi, this]
  constructor
  · simp only [getTargetFilepath, hdir, hst, if_true]
    rw [hcand n]
  · simp only [probedPaths, hdir, hst]
    exact List.map_congr_left (fun i _ => hcand i)

/-- C1 amended, at the second, different `IMG_0001.JPG` of 2021-06-15 under
`/out`: it resolves to `/out/2021/06/15/IMG_0001-1.JPG`. -/
theorem getTargetFilepath_least_free_witness :
    getTargetFilepath exLib fsCopied srcB outDir
      = ("/out/2021/06/15/IMG_0001-1.JPG".toList, none) ∧
    probedPaths exLib fsCopied srcB outDir
      = ["/out/2021/06/15/IMG_0001.JPG".toList, "/out/2021/06/15/IMG_0001-1.JPG".toList] := by
  have hw := getTargetFilepath_least_free exLib fsCopied srcB outDir
    { sec := 63759312000, nsec := 0, offset := 0 } "450b42a3040506000000000000000000".toList 1
    (by decide) (by decide) (by decide) (by decide) (by decide) (by decide)
  exact ⟨hw.1.trans (by decide), hw.2.trans (by decide)⟩

/-- C1 refuted, twice.  The date tag of `photoZero` decodes without error to
the zero time and its fingerprint is computed; candidate 0 names nothing, and
`getTargetFilepath` returns the error `Failed to get time of photo`, not that
path.  For `photoA` in the world `fsLocked`, candidate 0 exists with another
content and candidate 1 is the least that names nothing, and
`getTargetFilepath` returns candidate 0 after one probe, because `os.Stat`
fails on it. -/
theorem least_free_refuted :
    ((osOpen fsZero srcZ).toOption = some { bytes := photoZero.data, err := none } ∧
      (exLib.exifDecode { bytes := photoZero.data, err := none }).toOption.map
        (fun x => x.DateTime) = some (Time.zero, none) ∧
      getTimeFromMediaFile exLib fsZero srcZ = (Time.zero, none) ∧
      hashFileMD5 exLib fsZero srcZ = ("45000000070809000000000000000000".toList, none) ∧
      fsZero (candidatePath srcZ outDir Time.zero.Format 0) = none ∧
      getTargetFilepath exLib fsZero srcZ outDir
        = ([], some (.errorsNew "Failed to get time of photo"))) ∧
    (getTimeFromMediaFile exLib fsLocked srcA
        = ({ sec := 63759312000, nsec := 0, offset := 0 }, none) ∧
      hashFileMD5 exLib fsLocked srcA = ("450b42a3010203000000000000000000".toList, none) ∧
      fsLocked (candidatePath srcA outDir "2021/06/15".toList 0) = some (.locked photoB) ∧
      hexEncodeToString ((exLib.md5Sum photoB.data).take 16)
        ≠ "450b42a3010203000000000000000000".toList ∧
      fsLocked (candidatePath srcA outDir "2021/06/15".toList 1) = none ∧
      getTargetFilepath exLib fsLocked srcA outDir
        = (candidatePath srcA outDir "2021/06/15".toList 0, none) ∧
      candidatePath srcA outDir "2021/06/15".toList 0
        ≠ candidatePath srcA outDir "2021/06/15".toList 1 ∧
      probedPaths exLib fsLocked srcA outDir = ["/out/2021/06/15/IMG_0001.JPG".toList]) := by
  decide

/-- C3, as the code has it: at a non-empty path that `getTargetFilepath`
returns with a nil error `os.Stat` has failed, so that the path names no file
and no directory that `os.Stat` finds; and when `os.Stat` finds a probed
candidate and `hashFileMD5` returns for it the string it returns for the
source (the digest in hexadecimal, or the empty string when the file cannot be
hashed), the function returns the failure `Found duplicate file` and no path. -/
theorem getTargetFilepath_never_overwrites (lib : Lib) (fs : FS) (filePath baseDir : Str) :
    (∀ p, p ≠ [] → getTargetFilepath lib fs filePath baseDir = (p, none) →
      osStat fs p ≠ none ∧ (∀ f, fs p ≠ some (.file f)) ∧ fs p ≠ some .dir ∧
      outcome lib fs filePath baseDir = .Resolved p) ∧
    (∀ q, q ∈ probedPaths lib fs filePath baseDir → osStat fs q = none →
      (hashFileMD5 lib fs q).1 = (hashFileMD5 lib fs filePath).1 →
      getTargetFilepath lib fs filePath baseDir
        = ([], some (.errorsNew "Found duplicate file")) ∧
      outcome lib fs filePath baseDir = .Duplicate) := by
  constructor
  · intro p hp hres
    have hout := outcome_of_getTargetFilepath lib fs filePath baseDir p hp hres
    obtain ⟨dir, n, _, _, _, hfree, hpn, _⟩ := outcome_resolved_iff lib fs filePath baseDir p hout
    rw [← hpn] at hfree
    refine ⟨hfree, ?_, ?_, hout⟩
    · intro f hf
      exact hfree ((osStat_eq_none_iff fs p).2 (Or.inl ⟨f, hf⟩))
    · intro hd
      exact hfree ((osStat_eq_none_iff fs p).2 (Or.inr hd))
  · intro q hq hex hsame
    unfold probedPaths at hq
    unfold getTargetFilepath outcome
    rcases hd : getTargetDirectoryForFile lib fs filePath with ⟨dir, _ | e⟩
    · rw [hd] at hq
      simp only [] at hq ⊢
      rcases probeAll_cases lib fs filePath baseDir dir with
        ⟨n, hn, hlow, hfree, hst⟩ | ⟨n, _, _, _, _, hst⟩ | ⟨hall, hst⟩
      · exfalso
        rw [hst] at hq
        simp only [List.mem_map, List.mem_range] at hq
        obtain ⟨i, hi, hiq⟩ := hq
        subst hiq
        rcases Nat.lt_succ_iff_lt_or_eq.1 hi with hlt | heq
        · exact (hlow i hlt).2 hsame
        · subst heq; exact hfree hex
      · simp [hst]
      · exfalso
        rw [hst] at hq
        simp only [collidedState, List.mem_map, List.mem_range] at hq
        obtain ⟨i, hi, hiq⟩ := hq
        subst hiq
        exact (hall i hi).2 hsame
    · rw [hd] at hq
      simp at hq

/-- C3 amended, at the examples: `os.Stat` fails at the path resolved for
`photoB`, and `photoA`, whose copy is probed, is reported as a duplicate. -/
theorem getTargetFilepath_never_overwrites_witness :
    osStat fsCopied "/out/2021/06/15/IMG_0001-1.JPG".toList ≠ none ∧
    getTargetFilepath exLib fsCopied srcA outDir
      = ([], some (.errorsNew "Found duplicate file")) :=
  ⟨((getTargetFilepath_never_overwrites exLib fsCopied srcB outDir).1
      "/out/2021/06/15/IMG_0001-1.JPG".toList (by decide) (by decide)).1,
   ((getTargetFilepath_never_overwrites exLib fsCopied srcA outDir).2
      "/out/2021/06/15/IMG_0001.JPG".toList (by decide) (by decide) (by decide)).1⟩

/-- C3 refuted, twice.  In the world `fsLocked` the path returned for `photoA`
with a nil error names an existing file of another content, on which `os.Stat`
fails.  In the world `fsTwin` the probed candidate 0 exists with the very bytes
of `photoA`, so with its fingerprint, but cannot be opened, and the outcome is
the path of candidate 1, not Duplicate. -/
theorem never_overwrites_refuted :
    (getTargetFilepath exLib fsLocked srcA outDir
        = ("/out/2021/06/15/IMG_0001.JPG".toList, none) ∧
      fsLocked "/out/2021/06/15/IMG_0001.JPG".toList = some (.locked photoB) ∧
      fsLocked srcA = some (.file photoA) ∧
      hexEncodeToString ((exLib.md5Sum photoB.data).take 16)
        ≠ hexEncodeToString ((exLib.md5Sum photoA.data).take 16)) ∧
    ("/out/2021/06/15/IMG_0001.JPG".toList ∈ probedPaths exLib fsTwin srcA outDir ∧
      fsTwin "/out/2021/06/15/IMG_0001.JPG".toList
        = some (.file { data := photoA.data, openable := false, readErrAt := none }) ∧
      fsTwin srcA = some (.file photoA) ∧
      getTargetFilepath exLib fsTwin srcA outDir
        = ("/out/2021/06/15/IMG_0001-1.JPG".toList, none)) := by
  decide

/-- When the 99 candidates all exist with fingerprints other than the source's,
`getTargetFilepath` probes exactly the candidates 0 to 98 and returns the empty
path together with the error of the last `os.Stat`, which is nil. -/
theorem getTargetFilepath_exhausted (lib : Lib) (fs : FS) (filePath baseDir : Str) (t : Time)
    (htime : getTimeFromMediaFile lib fs filePath = (t, none)) (hzero : t.IsZero = false)
    (hall : ∀ i, i < 99 → Collides lib fs filePath baseDir t.Format i) :
    getTargetFilepath lib fs filePath baseDir = ([], none) ∧
    probedPaths lib fs filePath baseDir
      = (List.range 99).map (candidatePath filePath baseDir t.Format) ∧
    outcome lib fs filePath baseDir = .ProbeExhausted := by
  have hdir := getTargetDirectoryForFile_of_time lib fs filePath t htime hzero
  have hst := probeAll_exhausted lib fs filePath baseDir t.Format hall
  refine ⟨?_, ?_, ?_⟩
  · simp [getTargetFilepath, hdir, hst, collidedState]
  · simp [probedPaths, hdir, hst, collidedState]
  · simp [outcome, hdir, hst, collidedState]

/-- C4: in a world where each of the 99 candidates for `photoA` exists with
another content and the candidate of index 99 does not exist,
`getTargetFilepath` stops after the 99 probes of indices 0 to 98, and what it
returns for the exhausted search is the empty path with a nil error, not an
error value. -/
theorem getTargetFilepath_exhausted_returns_nil :
    (∀ i, i < 99 →
      fsFull (candidatePath srcA outDir "2021/06/15".toList i) ≠ none ∧
      (hashFileMD5 exLib fsFull (candidatePath srcA outDir "2021/06/15".toList i)).1
        ≠ (hashFileMD5 exLib fsFull srcA).1) ∧
    fsFull (candidatePath srcA outDir "2021/06/15".toList 99) = none ∧
    getTargetFilepath exLib fsFull srcA outDir = ([], none) ∧
    probedPaths exLib fsFull srcA outDir
      = (List.range 99).map (candidatePath srcA outDir "2021/06/15".toList) ∧
    (probedPaths exLib fsFull srcA outDir).length = 99 ∧
    outcome exLib fsFull srcA outDir = .ProbeExhausted := by
  have hall : ∀ i, i < 99 →
      fsFull (candidatePath srcA outDir "2021/06/15".toList i) ≠ none ∧
      (hashFileMD5 exLib fsFull (candidatePath srcA outDir "2021/06/15".toList i)).1
        ≠ (hashFileMD5 exLib fsFull srcA).1 := by decide
  have hfound : ∀ i, i < 99 →
      osStat fsFull (candidatePath srcA outDir "2021/06/15".toList i) = none ∧
      (hashFileMD5 exLib fsFull (candidatePath srcA outDir "2021/06/15".toList i)).1
        ≠ (hashFileMD5 exLib fsFull srcA).1 := by decide
  have hex := getTargetFilepath_exhausted exLib fsFull srcA outDir
    { sec := 63759312000, nsec := 0, offset := 0 } (by decide) (by decide) hfound
  refine ⟨hall, by decide, hex.1, hex.2.1, ?_, hex.2.2⟩
  rw [hex.2.1]
  simp

/-- C6: when no capture time is obtained for the source (it cannot be opened,
its metadata cannot be decoded, or the decoded metadata has no date tag),
`getTargetFilepath` returns a non-nil error and the empty path, having probed
nothing, whatever the destination holds. -/
theorem getTargetFilepath_no_timestamp (lib : Lib) (fs : FS) (filePath baseDir : Str)
    (h : (∃ e, osOpen fs filePath = .error e) ∨
      (∃ s e, osOpen fs filePath = .ok s ∧ lib.exifDecode s = .error e) ∨
      (∃ s x t e, osOpen fs filePath = .ok s ∧ lib.exifDecode s = .ok x ∧
        x.DateTime = (t, some e))) :
    (∃ e, getTargetFilepath lib fs filePath baseDir = ([], some e)) ∧
    probedPaths lib fs filePath baseDir = [] ∧
    outcome lib fs filePath baseDir = .TimestampUnavailable := by
  have hdir : ∃ e, getTargetDirectoryForFile lib fs filePath = ([], some e) := by
    rcases h with ⟨e, ho⟩ | ⟨s, e, ho, hx⟩ | ⟨s, x, t, e, ho, hx, hdt⟩
    · exact ⟨e, by simp [getTargetDirectoryForFile, getTimeFromMediaFile, ho]⟩
    · exact ⟨.errorsNew "Failed to get time of photo", by
        simp [getTargetDirectoryForFile, getTimeFromMediaFile, ho, hx, Time.IsZero, Time.zero]⟩
    · exact ⟨e, by simp [getTargetDirectoryForFile, getTimeFromMediaFile, ho, hx, hdt]⟩
  obtain ⟨e, he⟩ := hdir
  exact ⟨⟨e, by simp [getTargetFilepath, he]⟩, by simp [probedPaths, he], by simp [outcome, he]⟩

/-- C6 at a file without metadata, whose decoding fails: no path is returned. -/
theorem getTargetFilepath_no_timestamp_witness :
    osOpen fsFresh srcNotes = .ok { bytes := [104, 105], err := none } ∧
    ((∃ e, getTargetFilepath exLib fsFresh srcNotes outDir = ([], some e)) ∧
      probedPaths exLib fsFresh srcNotes outDir = [] ∧
      outcome exLib fsFresh srcNotes outDir = .TimestampUnavailable) :=
  ⟨rfl, getTargetFilepath_no_timestamp exLib fsFresh srcNotes outDir
    (Or.inr (Or.inl ⟨{ bytes := [104, 105], err := none },
      .other "exif: failed to find exif intro marker", rfl, rfl⟩))⟩

/-- C9: `copyFileIfRequired` with the source as the destination returns the
error `Not copying - file already exists` before it reaches the filesystem:
it makes no call to `os`, so it creates no directory, opens, creates and
truncates no file, and leaves every path, the file itself included, as it was. -/
theorem copyFileIfRequired_self (fs : FS) (p : Str) :
    (copyFileIfRequired fs p p).err = some (.errorsNew "Not copying - file already exists") ∧
    (copyFileIfRequired fs p p).calls = [] ∧
    (copyFileIfRequired fs p p).fs = fs := by
  simp [copyFileIfRequired]

/-- A cleaned path is never empty. -/
theorem Clean_ne_nil (path : Str) : Clean path ≠ [] := by
  unfold Clean renderStack
  cases isRooted path with
  | true => simp
  | false =>
    by_cases h : joinSep (cleanStack path).reverse = []
    · simp [h]
    · simp [h]

/-- A resolved path is never empty. -/
theorem resolved_ne_nil (lib : Lib) (fs : FS) (filePath baseDir p : Str)
    (h : outcome lib fs filePath baseDir = .Resolved p) : p ≠ [] := by
  obtain ⟨dir, n, hdir, _, _, _, hpn, _⟩ := outcome_resolved_iff lib fs filePath baseDir p h
  have hne : dir ≠ [] := by
    intro hnil
    unfold getTargetDirectoryForFile at hdir
    rcases ht : getTimeFromMediaFile lib fs filePath with ⟨t, _ | e⟩
    · rw [ht] at hdir
      by_cases hz : t.IsZero = true
      · simp [hz] at hdir
      · simp only [hz, Bool.false_eq_true, if_false, Prod.mk.injEq, and_true] at hdir
        rw [hnil] at hdir
        simp [Time.Format, formatDate] at hdir
    · rw [ht] at hdir
      simp at hdir
  rw [hpn, candidatePath]
  by_cases hb : baseDir = []
  · simp only [Join, hb, List.dropWhile_cons, decide_True, if_true, hne, decide_False]
    exact Clean_ne_nil _
  · simp only [Join, hb, List.dropWhile_cons, decide_False]
    exact Clean_ne_nil _

/-! ## The walk -/

/-- The function of the walk either leaves the world as it is or makes one call
of `copyFileIfRequired`, on the non-empty path `getTargetFilepath` returned
with a nil error. -/
theorem walkFn_cases (lib : Lib) (targetDir : Str) (w : World) (filePath : Str)
    (walkErr : Option GoError) :
    walkFn lib targetDir w filePath walkErr = w ∨
    ∃ p, p ≠ [] ∧ getTargetFilepath lib w.fs filePath targetDir = (p, none) ∧
      walkFn lib targetDir w filePath walkErr
        = { fs := (copyFileIfRequired w.fs filePath p).fs,
            copies := w.copies ++ [(filePath, p)] } := by
  unfold walkFn
  by_cases h1 : walkErr ≠ none
  · simp [h1]
  by_cases h2 : osStat w.fs filePath ≠ none
  · simp [h2]
  by_cases h3 : isDir (w.fs filePath) = true
  · simp [h3]
  rw [if_neg h1, if_neg h2, if_neg h3]
  rcases hg : getTargetFilepath lib w.fs filePath targetDir with ⟨p, _ | e⟩
  · by_cases hp : p = []
    · simp [hp]
    · right
      exact ⟨p, hp, rfl, by simp [hp]⟩
  · simp

/-- C7: the function that `iterateSourcePath` hands to the walk calls
`copyFileIfRequired` only on a resolved path.  On each of the outcomes
Duplicate, TimestampUnavailable and ProbeExhausted it starts no copy and leaves
the filesystem as it is; in the exhausted case `getTargetFilepath` returns the
empty path with a nil error, and the test for the empty path keeps the copy
from being made.  Whenever a copy is made, the outcome is Resolved and the
copy goes to the resolved path; and for a walked regular file whose outcome is
Resolved the copy is made. -/
theorem walkFn_copies_only_resolved (lib : Lib) (targetDir : Str) (w : World) (filePath : Str)
    (walkErr : Option GoError) :
    ((outcome lib w.fs filePath targetDir = .Duplicate ∨
        outcome lib w.fs filePath targetDir = .TimestampUnavailable ∨
        outcome lib w.fs filePath targetDir = .ProbeExhausted) →
      (walkFn lib targetDir w filePath walkErr).fs = w.fs ∧
      (walkFn lib targetDir w filePath walkErr).copies = w.copies) ∧
    (outcome lib w.fs filePath targetDir = .ProbeExhausted →
      getTargetFilepath lib w.fs filePath targetDir = ([], none)) ∧
    ((walkFn lib targetDir w filePath walkErr).copies ≠ w.copies →
      ∃ p, outcome lib w.fs filePath targetDir = .Resolved p ∧
        (walkFn lib targetDir w filePath walkErr).copies = w.copies ++ [(filePath, p)] ∧
        (walkFn lib targetDir w filePath walkErr).fs = (copyFileIfRequired w.fs filePath p).fs) ∧
    (∀ p f, walkErr = none → w.fs filePath = some (.file f) →
      outcome lib w.fs filePath targetDir = .Resolved p →
      (walkFn lib targetDir w filePath walkErr).copies = w.copies ++ [(filePath, p)]) := by
  have hcases := walkFn_cases lib targetDir w filePath walkErr
  refine ⟨?_, (getTargetFilepath_of_outcome lib w.fs filePath targetDir).2.2.1, ?_, ?_⟩
  · intro hout
    rcases hcases with hw | ⟨p, hp, hg, _⟩
    · rw [hw]; exact ⟨rfl, rfl⟩
    · exfalso
      have hres := outcome_of_getTargetFilepath lib w.fs filePath targetDir p hp hg
      rw [hres] at hout
      simp at hout
  · intro hne
    rcases hcases with hw | ⟨p, hp, hg, hw⟩
    · rw [hw] at hne; exact absurd rfl hne
    · exact ⟨p, outcome_of_getTargetFilepath lib w.fs filePath targetDir p hp hg,
        by rw [hw], by rw [hw]⟩
  · intro p f hwalk hfile hout
    have hp := resolved_ne_nil lib w.fs filePath targetDir p hout
    have hg := (getTargetFilepath_of_outcome lib w.fs filePath targetDir).2.2.2 p hout
    simp [walkFn, hwalk, osStat, hfile, isDir, hg, hp]

/-- C7 at the examples: the duplicate `photoA`, the file without metadata and
the exhausted search start no copy; the fresh `photoB` is copied to the path
resolved for it. -/
theorem walkFn_copies_only_resolved_witness :
    (walkFn exLib outDir { fs := fsCopied, copies := [] } srcA none).copies = [] ∧
    (walkFn exLib outDir { fs := fsFresh, copies := [] } srcNotes none).copies = [] ∧
    (walkFn exLib outDir { fs := fsFull, copies := [] } srcA none).copies = [] ∧
    (∃ p, outcome exLib fsCopied srcB outDir = .Resolved p ∧
      (walkFn exLib outDir { fs := fsCopied, copies := [] } srcB none).copies
        = [] ++ [(srcB, p)] ∧
      (walkFn exLib outDir { fs := fsCopied, copies := [] } srcB none).fs
        = (copyFileIfRequired fsCopied srcB p).fs) :=
  ⟨((walkFn_copies_only_resolved exLib outDir { fs := fsCopied, copies := [] } srcA none).1
      (Or.inl (by decide))).2,
   ((walkFn_copies_only_resolved exLib outDir { fs := fsFresh, copies := [] } srcNotes none).1
      (Or.inr (Or.inl (by decide)))).2,
   ((walkFn_copies_only_resolved exLib outDir { fs := fsFull, copies := [] } srcA none).1
      (Or.inr (Or.inr (by decide)))).2,
   (walkFn_copies_only_resolved exLib outDir { fs := fsCopied, copies := [] } srcB none).2.2.1
      (by decide)⟩

/-! ## Copying -/

theorem osOpen_congr (fs1 fs2 : FS) (path : Str) (h : fs1 path = fs2 path) :
    osOpen fs1 path = osOpen fs2 path := by
  unfold osOpen
  rw [h]

theorem hashFileMD5_congr (lib : Lib) (fs1 fs2 : FS) (path : Str) (h : fs1 path = fs2 path) :
    hashFileMD5 lib fs1 path = hashFileMD5 lib fs2 path := by
  unfold hashFileMD5
  rw [osOpen_congr fs1 fs2 path h]

theorem getTargetDirectoryForFile_congr (lib : Lib) (fs1 fs2 : FS) (path : Str)
    (h : fs1 path = fs2 path) :
    getTargetDirectoryForFile lib fs1 path = getTargetDirectoryForFile lib fs2 path := by
  unfold getTargetDirectoryForFile getTimeFromMediaFile
  rw [osOpen_congr fs1 fs2 path h]

/-- A file whose target directory is known exists. -/
theorem exists_of_getTargetDirectoryForFile (lib : Lib) (fs : FS) (path dir : Str)
    (h : getTargetDirectoryForFile lib fs path = (dir, none)) : fs path ≠ none := by
  intro hnone
  simp [getTargetDirectoryForFile, getTimeFromMediaFile, osOpen, hnone] at h

/-- The directories `createDirIfNotExist` makes are new: what existed is kept,
and a path that named nothing names nothing or a directory afterwards. -/
theorem createDirIfNotExist_fs (fs : FS) (dir q : Str) :
    (fs q ≠ none → (createDirIfNotExist fs dir).fs q = fs q) ∧
    (fs q = none → (createDirIfNotExist fs dir).fs q = none ∨
      (createDirIfNotExist fs dir).fs q = some .dir) := by
  unfold createDirIfNotExist
  cases hs : osStat fs dir with
  | none => exact ⟨fun _ => rfl, fun h => Or.inl h⟩
  | some e =>
    simp only []
    by_cases hne : isNotExist e = true
    · rw [if_pos hne]
      unfold osMkdirAll
      by_cases hany : (ancestors dir.length dir).any (fun a => isFile (fs a)) = true
      · rw [if_pos hany]
        exact ⟨fun _ => rfl, fun h => Or.inl h⟩
      · simp only [hany]
        constructor
        · intro hq
          simp [hq]
        · intro hq
          by_cases hmem : q ∈ ancestors dir.length dir
          · right; simp [hmem, hq]
          · left; simp [hmem, hq]
    · rw [if_neg hne]
      exact ⟨fun _ => rfl, fun h => Or.inl h⟩

/-- A copy onto a file out of reach fails. -/
theorem copyFileIfRequired_locked (fs : FS) (src dst : Str) (f : File)
    (hdst : fs dst = some (.locked f)) : (copyFileIfRequired fs src dst).err ≠ none := by
  unfold copyFileIfRequired
  by_cases hsd : src = dst
  · simp [hsd]
  simp only [if_neg hsd]
  have hkeep := (createDirIfNotExist_fs fs (Dir dst) dst).1 (by rw [hdst]; simp)
  rw [hdst] at hkeep
  cases hme : (createDirIfNotExist fs (Dir dst)).err with
  | some e => simp
  | none => simp [osCreate, hkeep, ioCopy]

/-- A successful copy to a path that named nothing: the source could be read to
its end, the destination holds the bytes read, and every path that named
something names the same thing as before. -/
theorem copyFileIfRequired_success (fs : FS) (src dst : Str) (hdst : fs dst = none)
    (hcopy : (copyFileIfRequired fs src dst).err = none) :
    ∃ stream, osOpen fs src = .ok stream ∧ stream.err = none ∧
      (copyFileIfRequired fs src dst).fs dst
        = some (.file { data := stream.bytes, openable := true, readErrAt := none }) ∧
      ∀ q, fs q ≠ none → (copyFileIfRequired fs src dst).fs q = fs q := by
  unfold copyFileIfRequired at hcopy ⊢
  by_cases hsd : src = dst
  · simp [hsd] at hcopy
  simp only [if_neg hsd] at hcopy ⊢
  have hmade := createDirIfNotExist_fs fs (Dir dst)
  cases hme : (createDirIfNotExist fs (Dir dst)).err with
  | some e => simp [hme] at hcopy
  | none =>
    simp only [hme] at hcopy ⊢
    -- the destination after the directories are made
    have hdst1 : (createDirIfNotExist fs (Dir dst)).fs dst = none := by
      rcases (hmade dst).2 hdst with h | h
      · exact h
      · exfalso
        simp [osCreate, h, ioCopy] at hcopy
    cases hopen : osOpen (createDirIfNotExist fs (Dir dst)).fs src with
    | error e =>
      exfalso
      rw [hopen] at hcopy
      cases hc : (osCreate (createDirIfNotExist fs (Dir dst)).fs dst).2 <;>
        simp [ioCopy, hc] at hcopy
    | ok stream =>
      rw [hopen] at hcopy
      by_cases hpar : (createDirIfNotExist fs (Dir dst)).fs (Dir dst) = some .dir
      · simp only [osCreate, hdst1, hpar, if_true, ioCopy] at hcopy ⊢
        have hsrc : fs src ≠ none := by
          intro hnone
          rcases (hmade src).2 hnone with h | h
          · simp [osOpen, h] at hopen
          · simp only [osOpen, h, Except.ok.injEq] at hopen
            rw [← hopen] at hcopy
            simp at hcopy
        refine ⟨stream, ?_, hcopy, ?_, ?_⟩
        · rw [← hopen]
          exact osOpen_congr _ _ _ ((hmade src).1 hsrc).symm
        · simp [writeFile]
        · intro q hq
          have hqd : q ≠ dst := fun h => hq (h ▸ hdst)
          simp only [writeFile, if_neg hqd]
          exact (hmade q).1 hq
      · exfalso
        simp [osCreate, hdst1, hpar, ioCopy] at hcopy

/-- C2: when `getTargetFilepath` has resolved a path for the source and
`copyFileIfRequired` has copied the source there without error, a second
`getTargetFilepath` on the same source and destination root returns the
failure `Found duplicate file` and no path. -/
theorem resolve_copy_resolve_is_duplicate (lib : Lib) (fs : FS) (filePath baseDir p : Str)
    (hp : p ≠ [])
    (hres : getTargetFilepath lib fs filePath baseDir = (p, none))
    (hcopy : (copyFileIfRequired fs filePath p).err = none) :
    getTargetFilepath lib (copyFileIfRequired fs filePath p).fs filePath baseDir
      = ([], some (.errorsNew "Found duplicate file")) ∧
    outcome lib (copyFileIfRequired fs filePath p).fs filePath baseDir = .Duplicate := by
  have hout := outcome_of_getTargetFilepath lib fs filePath baseDir p hp hres
  obtain ⟨dir, n, hdir, hn, hlow, hstat, hpn, _⟩ :=
    outcome_resolved_iff lib fs filePath baseDir p hout
  subst hpn
  -- the resolved path names nothing: a copy onto a file out of reach would have failed
  have hfree : fs (candidatePath filePath baseDir dir n) = none := by
    rcases hnode : fs (candidatePath filePath baseDir dir n) with _ | node
    · rfl
    · exfalso
      cases node with
      | file f => exact hstat ((osStat_eq_none_iff fs _).2 (Or.inl ⟨f, hnode⟩))
      | dir => exact hstat ((osStat_eq_none_iff fs _).2 (Or.inr hnode))
      | locked f => exact copyFileIfRequired_locked fs filePath _ f hnode hcopy
  obtain ⟨stream, hopen, herr, hnew, hkeep⟩ :=
    copyFileIfRequired_success fs filePath _ hfree hcopy
  have hsrc : fs filePath ≠ none := exists_of_getTargetDirectoryForFile lib fs filePath dir hdir
  have hsrc2 := hkeep filePath hsrc
  have hdir2 : getTargetDirectoryForFile lib
      (copyFileIfRequired fs filePath (candidatePath filePath baseDir dir n)).fs filePath
      = (dir, none) := by
    rw [getTargetDirectoryForFile_congr lib _ fs filePath hsrc2, hdir]
  have hhash2 := hashFileMD5_congr lib _ fs filePath hsrc2
  have hhash : hashFileMD5 lib fs filePath
      = (hexEncodeToString ((lib.md5Sum stream.bytes).take 16), none) := by
    simp [hashFileMD5, hopen, herr]
  have hlow2 : ∀ i, i < n → Collides lib
      (copyFileIfRequired fs filePath (candidatePath filePath baseDir dir n)).fs
      filePath baseDir dir i := by
    intro i hi
    obtain ⟨hex, hne⟩ := hlow i hi
    have hk := hkeep _ (exists_of_osStat fs _ hex)
    refine ⟨by rw [osStat_congr _ fs _ hk (exists_of_osStat fs _ hex)]; exact hex, ?_⟩
    rw [hashFileMD5_congr lib _ fs _ hk, hhash2]
    exact hne
  have hsame : (hashFileMD5 lib
      (copyFileIfRequired fs filePath (candidatePath filePath baseDir dir n)).fs
      (candidatePath filePath baseDir dir n)).1
      = (hashFileMD5 lib
      (copyFileIfRequired fs filePath (candidatePath filePath baseDir dir n)).fs filePath).1 := by
    rw [hhash2, hhash]
    simp [hashFileMD5, osOpen, hnew]
  have hst := probeAll_same lib _ filePath baseDir dir n hn hlow2
    ((osStat_eq_none_iff _ _).2 (Or.inl ⟨_, hnew⟩)) hsame
  constructor
  · simp [getTargetFilepath, hdir2, hst]
  · simp [outcome, hdir2, hst]

/-- C2 at `photoA` and the empty destination root `/out`: resolved, copied, and
found to be a duplicate at the second resolution. -/
theorem resolve_copy_resolve_is_duplicate_witness :
    getTargetFilepath exLib fsFresh srcA outDir = ("/out/2021/06/15/IMG_0001.JPG".toList, none) ∧
    (copyFileIfRequired fsFresh srcA "/out/2021/06/15/IMG_0001.JPG".toList).err = none ∧
    getTargetFilepath exLib
      (copyFileIfRequired fsFresh srcA "/out/2021/06/15/IMG_0001.JPG".toList).fs srcA outDir
      = ([], some (.errorsNew "Found duplicate file")) :=
  ⟨by decide, by decide,
    (resolve_copy_resolve_is_duplicate exLib fsFresh srcA outDir
      "/out/2021/06/15/IMG_0001.JPG".toList (by decide) (by decide) (by decide)).1⟩

/-! ## Splitting the name -/

/-- The scan of `filepath.Ext` in closed form: with `seg` the characters scanned
before the first separator, the result is empty when `seg` has no dot, and
otherwise the dot, the characters scanned before it, and `acc`. -/
theorem extScan_eq (r : List Char) : ∀ acc : Str,
    extScan r acc =
      if '.' ∈ r.takeWhile (· ≠ '/') then
        '.' :: (((r.takeWhile (· ≠ '/')).takeWhile (· ≠ '.')).reverse ++ acc)
      else [] := by
  induction r with
  | nil => intro acc; simp [extScan]
  | cons c r ih =>
    intro acc
    by_cases hs : c = '/'
    · simp [extScan, hs, List.takeWhile_cons]
    · by_cases hd : c = '.'
      · subst hd
        simp [extScan, List.takeWhile_cons]
      · have hd2 : ¬ '.' = c := fun h => hd h.symm
        rw [extScan, if_neg hs, if_neg hd, ih]
        simp [List.takeWhile_cons, hs, hd, hd2]

/-- A list with a dot splits at its first dot. -/
theorem split_first_dot (seg : List Char) (h : '.' ∈ seg) :
    ∃ rest, seg = seg.takeWhile (· ≠ '.') ++ '.' :: rest ∧
      '.' ∉ seg.takeWhile (· ≠ '.') := by
  induction seg with
  | nil => simp at h
  | cons c seg ih =>
    by_cases hd : c = '.'
    · subst hd
      exact ⟨seg, by simp [List.takeWhile_cons]⟩
    · have hmem : '.' ∈ seg := by
        rcases List.mem_cons.1 h with h1 | h1
        · exact absurd h1.symm hd
        · exact h1
      obtain ⟨rest, hrest, hno⟩ := ih hmem
      have hd2 : ¬ '.' = c := fun h => hd h.symm
      refine ⟨rest, ?_, ?_⟩
      · simp only [List.takeWhile_cons, ne_eq, hd, not_false_eq_true, decide_True, if_true,
          List.cons_append]
        rw [← hrest]
      · simp only [List.takeWhile_cons, ne_eq, hd, not_false_eq_true, decide_True, if_true,
          List.mem_cons, not_or]
        exact ⟨hd2, hno⟩

/-- The base of a path that ends in a character other than the separator is
what follows the last separator. -/
theorem Base_of_file (q : Str) (c : Char) (hc : c ≠ '/') :
    Base (q ++ [c]) = (((q ++ [c]).reverse).takeWhile (· ≠ '/')).reverse := by
  unfold Base
  simp [List.dropWhile_cons, List.takeWhile_cons, hc]

theorem TrimSuffix_append (pre e : Str) : TrimSuffix (pre ++ e) e = pre := by
  unfold TrimSuffix
  have : e.isSuffixOf (pre ++ e) = true := by
    rw [List.isSuffixOf_iff_suffix]
    exact List.suffix_append pre e
  simp [this]

theorem TrimSuffix_nil (s : Str) : TrimSuffix s [] = s := by
  have := TrimSuffix_append s []
  simpa using this

/-- The extension is a suffix of the base: some `pre` and `Ext path` make up
`Base path`. -/
theorem Ext_suffix_Base (path : Str) : ∃ pre, Base path = pre ++ Ext path := by
  rcases List.eq_nil_or_concat path with hnil | ⟨q, c, hq⟩
  · subst hnil
    exact ⟨['.'], by simp [Ext, extScan, Base]⟩
  · subst hq
    rw [List.concat_eq_append]
    by_cases hc : c = '/'
    · subst hc
      exact ⟨Base (q ++ ['/']), by simp [Ext, extScan]⟩
    · rw [Base_of_file q c hc, Ext, extScan_eq]
      by_cases hdot : '.' ∈ ((q ++ [c]).reverse).takeWhile (· ≠ '/')
      · rw [if_pos hdot]
        obtain ⟨rest, hrest, _⟩ := split_first_dot _ hdot
        refine ⟨rest.reverse, ?_⟩
        conv_lhs => rw [hrest]
        simp
      · rw [if_neg hdot]
        exact ⟨(((q ++ [c]).reverse).takeWhile (· ≠ '/')).reverse, (List.append_nil _).symm⟩

/-- The base name followed by the extension is the file name. -/
theorem TrimSuffix_Base_Ext (path : Str) :
    TrimSuffix (Base path) (Ext path) ++ Ext path = Base path := by
  obtain ⟨pre, hpre⟩ := Ext_suffix_Base path
  rw [hpre, TrimSuffix_append]

/-- A file name without a dot has no extension. -/
theorem Ext_of_no_dot (path : Str) (h : '.' ∉ Base path) : Ext path = [] := by
  rcases List.eq_nil_or_concat path with hnil | ⟨q, c, hq⟩
  · subst hnil; rfl
  · subst hq
    rw [List.concat_eq_append] at *
    by_cases hc : c = '/'
    · subst hc
      simp [Ext, extScan]
    · rw [Base_of_file q c hc] at h
      rw [Ext, extScan_eq, if_neg]
      intro hmem
      exact h (List.mem_reverse.2 hmem)

/-- For the path of a file, the extension of a name with a dot starts at the
last dot of the name. -/
theorem Ext_of_dot (q : Str) (c : Char) (hc : c ≠ '/') (h : '.' ∈ Base (q ++ [c])) :
    ∃ pre rest, Base (q ++ [c]) = pre ++ '.' :: rest ∧ '.' ∉ rest ∧
      Ext (q ++ [c]) = '.' :: rest := by
  rw [Base_of_file q c hc] at h ⊢
  have hdot : '.' ∈ ((q ++ [c]).reverse).takeWhile (· ≠ '/') := List.mem_reverse.1 h
  obtain ⟨rest, hrest, hno⟩ := split_first_dot _ hdot
  refine ⟨rest.reverse,
    ((((q ++ [c]).reverse).takeWhile (· ≠ '/')).takeWhile (· ≠ '.')).reverse, ?_, ?_, ?_⟩
  · conv_lhs => rw [hrest]
    simp
  · intro hmem
    exact hno (List.mem_reverse.1 hmem)
  · rw [Ext, extScan_eq, if_pos hdot]
    simp

/-- C10: the extension is empty when the file name has no dot; for the path of
a file (one that ends in a character other than the separator) whose name has
a dot, the extension is the part of the name from its last dot on and the base
name is what precedes it.  Base name and extension together are the file
name, so the candidate of index 0 is the file name itself, and a source with
a capture time is resolved to its own name in the day's directory when nothing
is there; a name without a dot gets the candidates `name-1`, `name-2`, ...,
without a trailing dot. -/
theorem name_splitting (lib : Lib) (fs : FS) (filePath baseDir : Str) :
    ('.' ∉ Base filePath → Ext filePath = []) ∧
    (∀ q c, filePath = q ++ [c] → c ≠ '/' → '.' ∈ Base filePath →
      ∃ pre rest, Base filePath = pre ++ '.' :: rest ∧ '.' ∉ rest ∧
        Ext filePath = '.' :: rest ∧ TrimSuffix (Base filePath) (Ext filePath) = pre) ∧
    TrimSuffix (Base filePath) (Ext filePath) ++ Ext filePath = Base filePath ∧
    (∀ dir, candidatePath filePath baseDir dir 0 = Join [baseDir, dir, Base filePath]) ∧
    (∀ t, getTimeFromMediaFile lib fs filePath = (t, none) → t.IsZero = false →
      fs (Join [baseDir, t.Format, Base filePath]) = none →
      getTargetFilepath lib fs filePath baseDir
        = (Join [baseDir, t.Format, Base filePath], none)) ∧
    ('.' ∉ Base filePath → ∀ dir n, n ≥ 1 →
      candidatePath filePath baseDir dir n
        = Join [baseDir, dir, Base filePath ++ '-' :: itoa n]) := by
  have hcand0 : ∀ dir, candidatePath filePath baseDir dir 0
      = Join [baseDir, dir, Base filePath] := by
    intro dir
    simp [candidatePath, attemptFilename, TrimSuffix_Base_Ext]
  refine ⟨Ext_of_no_dot filePath, ?_, TrimSuffix_Base_Ext filePath, hcand0, ?_, ?_⟩
  · intro q c hq hc hdot
    subst hq
    obtain ⟨pre, rest, hbase, hno, hext⟩ := Ext_of_dot q c hc hdot
    refine ⟨pre, rest, hbase, hno, hext, ?_⟩
    rw [hext, hbase, TrimSuffix_append]
  · intro t htime hzero hfree
    have hdir := getTargetDirectoryForFile_of_time lib fs filePath t htime hzero
    rw [← hcand0] at hfree ⊢
    have hst := probeAll_free lib fs filePath baseDir t.Format 0 (by omega)
      (fun i hi => absurd hi (Nat.not_lt_zero i)) (osStat_of_absent fs _ hfree)
    simp [getTargetFilepath, hdir, hst]
  · intro hdot dir n hn
    have hext := Ext_of_no_dot filePath hdot
    have hpos : n > 0 := hn
    simp [candidatePath, attemptFilename, hext, TrimSuffix_nil, hpos]

/-- C10 at the examples: `IMG_0001.JPG` splits into `IMG_0001` and `.JPG` and,
with nothing in the destination, keeps its name; the second `DSC0042`, a name
without extension, becomes `DSC0042-1`. -/
theorem name_splitting_witness :
    (∃ pre rest, "IMG_0001.JPG".toList = pre ++ '.' :: rest ∧ '.' ∉ rest ∧
      Ext srcA = '.' :: rest ∧ TrimSuffix (Base srcA) (Ext srcA) = pre) ∧
    getTargetFilepath exLib fsFresh srcA outDir
      = ("/out/2021/06/15/IMG_0001.JPG".toList, none) ∧
    candidatePath srcC outDir "2021/06/15".toList 1 = "/out/2021/06/15/DSC0042-1".toList ∧
    getTargetFilepath exLib fsNoExt srcC outDir
      = ("/out/2021/06/15/DSC0042-1".toList, none) :=
  ⟨(name_splitting exLib fsFresh srcA outDir).2.1 "/photos/IMG_0001.JP".toList 'G'
      (by decide) (by decide) (by decide),
   ((name_splitting exLib fsFresh srcA outDir).2.2.2.2.1
      { sec := 63759312000, nsec := 0, offset := 0 } (by decide) (by decide)
      (by decide)).trans (by decide),
   ((name_splitting exLib fsNoExt srcC outDir).2.2.2.2.2 (by decide)
      "2021/06/15".toList 1 (by decide)).trans (by decide),
   by decide⟩

/-! ## Failures of hashing -/

/-- A fingerprint that is computed is not the empty string, given that the
digest has 16 bytes, and it is the fingerprint of a file that `os.Stat` finds. -/
theorem hashFileMD5_ne_nil (lib : Lib) (fs : FS) (path : Str)
    (hsum : ∀ bytes, (lib.md5Sum bytes).length = 16)
    (hh : (hashFileMD5 lib fs path).2 = none) :
    (hashFileMD5 lib fs path).1 ≠ [] ∧ osStat fs path = none := by
  unfold hashFileMD5 at hh ⊢
  cases ho : osOpen fs path with
  | error e => simp [ho] at hh
  | ok file =>
    rw [ho] at hh
    cases he : file.err with
    | some e => simp [he] at hh
    | none =>
      simp only [he]
      constructor
      · have hlen := hsum file.bytes
        rcases hm : lib.md5Sum file.bytes with _ | ⟨b, bs⟩
        · rw [hm] at hlen; simp at hlen
        · simp [hexEncodeToString]
      · rw [osStat_eq_none_iff]
        rcases hnode : fs path with _ | node
        · simp [osOpen, hnode] at ho
        · cases node with
          | file f => exact Or.inl ⟨f, rfl⟩
          | dir => exact Or.inr rfl
          | locked f => simp [osOpen, hnode] at ho

/-- The fingerprint of a file that cannot be hashed is the empty string. -/
theorem hashFileMD5_failed (lib : Lib) (fs : FS) (path : Str)
    (h : (hashFileMD5 lib fs path).2 ≠ none) : (hashFileMD5 lib fs path).1 = [] := by
  unfold hashFileMD5 at h ⊢
  cases ho : osOpen fs path with
  | error e => simp
  | ok file =>
    rw [ho] at h
    cases he : file.err with
    | some e => simp [he]
    | none => simp [he] at h

/-- C8, as the code has it: the error of hashing the source is dropped and the
search goes on with the empty string as the fingerprint of the source.  For a
source whose date tag is read without error and whose fingerprint cannot be
computed (digests having 16 bytes): if the time read is the zero time,
`getTargetFilepath` returns the error `Failed to get time of photo`;
otherwise, for `n < 99` such that every candidate of lower index is hashed
without error, it returns the candidate of index `n` with a nil error if that
path names nothing, and the error `Found duplicate file` if `os.Stat` finds
the candidate and the candidate cannot be hashed either; and whatever the
destination holds, the error it returns is nil, `Failed to get time of photo`
or `Found duplicate file`, never the error of the hashing. -/
theorem getTargetFilepath_hash_failure (lib : Lib) (fs : FS) (filePath baseDir : Str) (t : Time)
    (hsum : ∀ bytes, (lib.md5Sum bytes).length = 16)
    (htime : getTimeFromMediaFile lib fs filePath = (t, none))
    (hhash : (hashFileMD5 lib fs filePath).2 ≠ none) :
    (t.IsZero = true →
      getTargetFilepath lib fs filePath baseDir
        = ([], some (.errorsNew "Failed to get time of photo"))) ∧
    (t.IsZero = false → ∀ n, n < 99 →
      (∀ i, i < n → (hashFileMD5 lib fs (candidatePath filePath baseDir t.Format i)).2 = none) →
      (fs (candidatePath filePath baseDir t.Format n) = none →
        getTargetFilepath lib fs filePath baseDir
          = (candidatePath filePath baseDir t.Format n, none)) ∧
      (osStat fs (candidatePath filePath baseDir t.Format n) = none →
        (hashFileMD5 lib fs (candidatePath filePath baseDir t.Format n)).2 ≠ none →
        getTargetFilepath lib fs filePath baseDir
          = ([], some (.errorsNew "Found duplicate file")))) ∧
    ((getTargetFilepath lib fs filePath baseDir).2 = none ∨
      (getTargetFilepath lib fs filePath baseDir).2
        = some (.errorsNew "Failed to get time of photo") ∨
      (getTargetFilepath lib fs filePath baseDir).2
        = some (.errorsNew "Found duplicate file")) := by
  have hempty := hashFileMD5_failed lib fs filePath hhash
  refine ⟨?_, ?_, ?_⟩
  · intro hzero
    simp [getTargetFilepath, getTargetDirectoryForFile, htime, hzero]
  rotate_left
  · by_cases hzero : t.IsZero = true
    · right; left
      simp [getTargetFilepath, getTargetDirectoryForFile, htime, hzero]
    · have hdir := getTargetDirectoryForFile_of_time lib fs filePath t htime (by simpa using hzero)
      rcases probeAll_cases lib fs filePath baseDir t.Format with
        ⟨n, _, _, _, hst⟩ | ⟨n, _, _, _, _, hst⟩ | ⟨_, hst⟩
      · left; simp [getTargetFilepath, hdir, hst]
      · right; right; simp [getTargetFilepath, hdir, hst]
      · left; simp [getTargetFilepath, hdir, hst, collidedState]
  · intro hzero n hn hlow
    have hdir := getTargetDirectoryForFile_of_time lib fs filePath t htime hzero
    have hlow2 : ∀ i, i < n → Collides lib fs filePath baseDir t.Format i := by
      intro i hi
      obtain ⟨hne, hex⟩ := hashFileMD5_ne_nil lib fs _ hsum (hlow i hi)
      refine ⟨hex, ?_⟩
      rw [hempty]
      exact hne
    constructor
    · intro hfree
      have hst := probeAll_free lib fs filePath baseDir t.Format n hn hlow2
        (osStat_of_absent fs _ hfree)
      simp [getTargetFilepath, hdir, hst]
    · intro hfound hbad
      have hsame : (hashFileMD5 lib fs (candidatePath filePath baseDir t.Format n)).1
          = (hashFileMD5 lib fs filePath).1 := by
        rw [hempty, hashFileMD5_failed lib fs _ hbad]
      have hst := probeAll_same lib fs filePath baseDir t.Format n hn hlow2 hfound hsame
      simp [getTargetFilepath, hdir, hst]

/-- C8 amended, at the photo with the unreadable tail: resolved to
`IMG_0001-1.JPG` behind another photo, and reported as a duplicate of a photo
that cannot be opened. -/
theorem getTargetFilepath_hash_failure_witness :
    getTargetFilepath exLib fsBad srcA outDir
      = (candidatePath srcA outDir "2021/06/15".toList 1, none) ∧
    getTargetFilepath exLib fsBothBad srcA outDir
      = ([], some (.errorsNew "Found duplicate file")) :=
  ⟨((getTargetFilepath_hash_failure exLib fsBad srcA outDir
      { sec := 63759312000, nsec := 0, offset := 0 }
      (by intro bytes; simp [exLib, exDigest]) (by decide) (by decide)).2.1 (by decide) 1
      (by decide)
      (by
        intro i hi
        have hi0 : i = 0 := by omega
        subst hi0
        decide)).1 (by decide),
   ((getTargetFilepath_hash_failure exLib fsBothBad srcA outDir
      { sec := 63759312000, nsec := 0, offset := 0 }
      (by intro bytes; simp [exLib, exDigest]) (by decide) (by decide)).2.1 (by decide) 0
      (by decide) (fun i hi => absurd hi (Nat.not_lt_zero i))).2 (by decide) (by decide)⟩

/-- C8 refuted, twice.  The capture time of the photo at `srcA` is available
and its fingerprint cannot be computed.  In the world `fsBad`
`getTargetFilepath` returns a path with a nil error all the same.  In the
world `fsBothBad` it returns `Found duplicate file` against a candidate whose
fingerprint is not computed either. -/
theorem hash_failure_not_folded :
    (getTargetDirectoryForFile exLib fsBad srcA = ("2021/06/15".toList, none) ∧
      hashFileMD5 exLib fsBad srcA
        = ([], some (.pathError "read" srcA "input/output error")) ∧
      getTargetFilepath exLib fsBad srcA outDir
        = ("/out/2021/06/15/IMG_0001-1.JPG".toList, none)) ∧
    (getTargetDirectoryForFile exLib fsBothBad srcA = ("2021/06/15".toList, none) ∧
      hashFileMD5 exLib fsBothBad srcA
        = ([], some (.pathError "read" srcA "input/output error")) ∧
      hashFileMD5 exLib fsBothBad "/out/2021/06/15/IMG_0001.JPG".toList
        = ([], some (.pathError "open" "/out/2021/06/15/IMG_0001.JPG".toList
            "permission denied")) ∧
      getTargetFilepath exLib fsBothBad srcA outDir
        = ([], some (.errorsNew "Found duplicate file"))) := by
  decide

/-! ## Cleaned paths -/

theorem splitSep_ne_nil (s : Str) : splitSep s ≠ [] := by
  induction s with
  | nil => simp [splitSep]
  | cons c cs ih =>
    unfold splitSep
    by_cases hc : c = '/'
    · simp [hc]
    · rw [if_neg hc]
      cases h : splitSep cs <;> simp

theorem splitSep_append (a b : Str) : splitSep (a ++ '/' :: b) = splitSep a ++ splitSep b := by
  induction a with
  | nil => simp [splitSep]
  | cons c a ih =>
    by_cases hc : c = '/'
    · simp [splitSep, hc, ih]
    · simp only [List.cons_append, splitSep, if_neg hc]
      have ih2 : splitSep (a.append ('/' :: b)) = splitSep a ++ splitSep b := ih
      rw [ih2]
      cases h : splitSep a with
      | nil => exact absurd h (splitSep_ne_nil a)
      | cons e es => simp

theorem splitSep_of_no_sep (name : Str) (h : '/' ∉ name) : splitSep name = [name] := by
  induction name with
  | nil => rfl
  | cons c cs ih =>
    have hc : c ≠ '/' := fun hc => h (by simp [hc])
    have hcs : '/' ∉ cs := fun hm => h (List.mem_cons_of_mem _ hm)
    simp [splitSep, hc, ih hcs]

theorem splitSep_no_sep (s : Str) : ∀ e ∈ splitSep s, '/' ∉ e := by
  induction s with
  | nil => simp [splitSep]
  | cons c cs ih =>
    unfold splitSep
    by_cases hc : c = '/'
    · rw [if_pos hc]
      intro e he
      rcases List.mem_cons.1 he with h | h
      · subst h; simp
      · exact ih e h
    · rw [if_neg hc]
      cases h : splitSep cs with
      | nil => exact absurd h (splitSep_ne_nil cs)
      | cons e0 es =>
        rw [h] at ih
        intro e he
        rcases List.mem_cons.1 he with h1 | h1
        · subst h1
          intro hm
          rcases List.mem_cons.1 hm with h2 | h2
          · exact hc h2.symm
          · exact ih e0 (List.mem_cons_self _ _) h2
        · exact ih e (List.mem_cons_of_mem _ h1)

theorem joinSep_cons_cons (e f : Str) (l : List Str) :
    joinSep (e :: f :: l) = e ++ '/' :: joinSep (f :: l) := rfl

theorem splitSep_joinSep (l : List Str) (hne : l ≠ []) (h : ∀ e ∈ l, '/' ∉ e) :
    splitSep (joinSep l) = l := by
  induction l with
  | nil => exact absurd rfl hne
  | cons e l ih =>
    cases l with
    | nil => exact splitSep_of_no_sep e (h e (List.mem_cons_self _ _))
    | cons f l =>
      rw [joinSep_cons_cons, splitSep_append,
        splitSep_of_no_sep e (h e (List.mem_cons_self _ _)),
        ih (by simp) (fun x hx => h x (List.mem_cons_of_mem _ hx))]
      rfl

theorem joinSep_concat (l : List Str) (name : Str) (hne : l ≠ []) :
    joinSep (l ++ [name]) = joinSep l ++ '/' :: name := by
  induction l with
  | nil => exact absurd rfl hne
  | cons e l ih =>
    cases l with
    | nil => rfl
    | cons f l =>
      have := ih (by simp)
      simp only [List.cons_append, joinSep_cons_cons] at this ⊢
      rw [this]
      simp

theorem joinSep_head (e : Str) (l : List Str) (he : e ≠ []) :
    (joinSep (e :: l)).head? = e.head? := by
  cases l with
  | nil => rfl
  | cons f l =>
    rw [joinSep_cons_cons]
    cases e with
    | nil => exact absurd rfl he
    | cons c cs => rfl

theorem cleanStep_good (rooted : Bool) (st : List Str) (e : Str) (hst : GoodStack rooted st)
    (he : '/' ∉ e) : GoodStack rooted (cleanStep rooted st e) := by
  unfold cleanStep
  by_cases h1 : e = [] ∨ e = ['.']
  · rw [if_pos h1]; exact hst
  · rw [if_neg h1]
    have hne : e ≠ [] := fun h => h1 (Or.inl h)
    have hnd : e ≠ ['.'] := fun h => h1 (Or.inr h)
    by_cases h2 : e = ['.', '.']
    · rw [if_pos h2]
      cases st with
      | nil =>
        cases rooted with
        | true => simp [GoodStack]
        | false => simp [GoodStack, h2]
      | cons top rest =>
        simp only []
        by_cases h3 : top = ['.', '.']
        · rw [if_pos h3]
          obtain ⟨hr, hall⟩ := hst.2.2.2.1 h3
          refine ⟨hne, hnd, he, fun _ => ⟨hr, ?_⟩, hst⟩
          intro x hx
          rcases List.mem_cons.1 hx with h | h
          · rw [h, h3]
          · exact hall x h
        · rw [if_neg h3]
          exact hst.2.2.2.2
    · rw [if_neg h2]
      exact ⟨hne, hnd, he, fun h => absurd h h2, hst⟩

theorem foldl_cleanStep_good (rooted : Bool) (l : List Str) :
    ∀ st, GoodStack rooted st → (∀ e ∈ l, '/' ∉ e) →
      GoodStack rooted (l.foldl (cleanStep rooted) st) := by
  induction l with
  | nil => intro st hst _; exact hst
  | cons e l ih =>
    intro st hst hl
    rw [List.foldl_cons]
    exact ih _ (cleanStep_good rooted st e hst (hl e (List.mem_cons_self _ _)))
      (fun x hx => hl x (List.mem_cons_of_mem _ hx))

theorem cleanStack_good (path : Str) : GoodStack (isRooted path) (cleanStack path) :=
  foldl_cleanStep_good _ _ [] trivial (splitSep_no_sep path)

/-- Cleaning the elements of a cleaned path gives them back. -/
theorem foldl_cleanStep_reverse (rooted : Bool) (st : List Str) (h : GoodStack rooted st) :
    st.reverse.foldl (cleanStep rooted) [] = st := by
  induction st with
  | nil => rfl
  | cons e rest ih =>
    obtain ⟨hne, hnd, _, hdd, hrest⟩ := h
    rw [List.reverse_cons, List.foldl_append, ih hrest]
    simp only [List.foldl_cons, List.foldl_nil]
    unfold cleanStep
    rw [if_neg (by simp [hne, hnd])]
    by_cases h2 : e = ['.', '.']
    · rw [if_pos h2]
      obtain ⟨hr, hall⟩ := hdd h2
      cases rest with
      | nil => simp [hr, h2]
      | cons top rest2 =>
        simp only []
        rw [if_pos (hall top (List.mem_cons_self _ _))]
    · rw [if_neg h2]

theorem isRooted_append (s0 x : Str) (h : s0 ≠ []) : isRooted (s0 ++ x) = isRooted s0 := by
  cases s0 with
  | nil => exact absurd rfl h
  | cons c cs => rfl

theorem cleanStack_append (s0 name : Str) (hs0 : s0 ≠ []) (hname : IsFileName name) :
    cleanStack (s0 ++ '/' :: name) = name :: cleanStack s0 := by
  obtain ⟨hne, hsep, hnd, hndd⟩ := hname
  unfold cleanStack
  rw [isRooted_append s0 _ hs0, splitSep_append, splitSep_of_no_sep name hsep,
    List.foldl_append]
  simp only [List.foldl_cons, List.foldl_nil]
  unfold cleanStep
  rw [if_neg (by simp [hne, hnd]), if_neg hndd]

/-- What precedes the last element of a path, the separator included. -/
theorem dirPart_append (x name : Str) (hsep : '/' ∉ name) :
    ((x ++ '/' :: name).reverse.dropWhile (· ≠ '/')).reverse = x ++ ['/'] := by
  have hall : ∀ c ∈ name.reverse, (decide (c ≠ '/')) = true := by
    intro c hc
    have : c ≠ '/' := fun h => hsep (h ▸ List.mem_reverse.1 hc)
    simpa using this
  rw [List.reverse_append, List.reverse_cons, List.append_assoc,
    List.dropWhile_append_of_pos hall]
  simp [List.dropWhile_cons]

theorem dirPart_name (name : Str) (hsep : '/' ∉ name) :
    (name.reverse.dropWhile (· ≠ '/')).reverse = [] := by
  have hall : ∀ c ∈ name.reverse, (decide (c ≠ '/')) = true := by
    intro c hc
    have : c ≠ '/' := fun h => hsep (h ▸ List.mem_reverse.1 hc)
    simpa using this
  rw [List.reverse_eq_nil_iff, List.dropWhile_eq_nil_iff]
  exact hall

theorem GoodStack_mem (rooted : Bool) (st : List Str) (hst : GoodStack rooted st) :
    ∀ e ∈ st, e ≠ [] ∧ '/' ∉ e := by
  induction st with
  | nil => intro e he; simp at he
  | cons x rest ih =>
    intro e he
    rcases List.mem_cons.1 he with h | h
    · rw [h]; exact ⟨hst.1, hst.2.2.1⟩
    · exact ih hst.2.2.2.2 e h

theorem joinSep_ne_nil (l : List Str) (hne : l ≠ []) (h : ∀ e ∈ l, e ≠ []) : joinSep l ≠ [] := by
  cases l with
  | nil => exact absurd rfl hne
  | cons f l =>
    have hf := h f (List.mem_cons_self _ _)
    intro hnil
    have hhead := joinSep_head f l hf
    rw [hnil] at hhead
    cases f with
    | nil => exact hf rfl
    | cons c cs => simp at hhead

/-- A cleaned path followed by a separator cleans to itself. -/
theorem Clean_render_sep (rooted : Bool) (st : List Str) (hst : GoodStack rooted st)
    (hne : st ≠ []) :
    Clean (renderStack rooted st ++ ['/']) = renderStack rooted st := by
  have hrev : st.reverse ≠ [] := by simpa using hne
  have hmemrev : ∀ e ∈ st.reverse, e ≠ [] ∧ '/' ∉ e :=
    fun e he => GoodStack_mem rooted st hst e (List.mem_reverse.1 he)
  have hsplit : splitSep (joinSep st.reverse ++ ['/']) = st.reverse ++ [[]] := by
    rw [splitSep_append, splitSep_joinSep _ hrev (fun e he => (hmemrev e he).2)]
    rfl
  have hfold : (st.reverse ++ [[]]).foldl (cleanStep rooted) [] = st := by
    rw [List.foldl_append, foldl_cleanStep_reverse rooted st hst]
    simp [cleanStep]
  cases rooted with
  | true =>
    have hroot : isRooted (renderStack true st ++ ['/']) = true := by
      simp [renderStack, isRooted]
    unfold Clean cleanStack
    rw [hroot]
    have hsp : splitSep (renderStack true st ++ ['/']) = [] :: (st.reverse ++ [[]]) := by
      simp only [renderStack, if_true, List.cons_append]
      rw [splitSep, if_pos rfl, hsplit]
    rw [hsp, List.foldl_cons]
    have h0 : cleanStep true [] [] = [] := by simp [cleanStep]
    rw [h0, hfold]
  | false =>
    have hbody := joinSep_ne_nil st.reverse hrev (fun e he => (hmemrev e he).1)
    have hrender : renderStack false st = joinSep st.reverse := by
      simp [renderStack, hbody]
    -- the first element does not begin with a separator
    have hroot : isRooted (renderStack false st ++ ['/']) = false := by
      rw [hrender]
      cases hfl : st.reverse with
      | nil => exact absurd hfl hrev
      | cons f l =>
        have hf := hmemrev f (by rw [hfl]; exact List.mem_cons_self _ _)
        have hhead := joinSep_head f l hf.1
        cases f with
        | nil => exact absurd rfl hf.1
        | cons c cs =>
          have hcsep : c ≠ '/' := fun h => hf.2 (by rw [h]; exact List.mem_cons_self _ _)
          cases hj : joinSep ((c :: cs) :: l) with
          | nil => rw [hj] at hhead; simp at hhead
          | cons d ds =>
            rw [hj] at hhead
            simp only [List.head?_cons, Option.some.injEq] at hhead
            simp [isRooted, hhead, hcsep]
    unfold Clean cleanStack
    rw [hroot]
    conv_lhs => rw [hrender, hsplit, hfold]

/-- The directory of a cleaned path that ends in a file name is the cleaned
path without that name. -/
theorem Dir_Clean_append (s0 name : Str) (hs0 : s0 ≠ []) (hname : IsFileName name) :
    Dir (Clean (s0 ++ '/' :: name)) = Clean s0 := by
  have hgood := cleanStack_good s0
  have hsep := hname.2.1
  have hnm := hname.1
  unfold Clean
  rw [cleanStack_append s0 name hs0 hname, isRooted_append s0 _ hs0]
  cases hst : cleanStack s0 with
  | nil =>
    cases hr : isRooted s0 with
    | true =>
      have h1 : renderStack true [name] = [] ++ '/' :: name := by simp [renderStack, joinSep]
      rw [h1, Dir, dirPart_append [] name hsep]
      decide
    | false =>
      have h1 : renderStack false [name] = name := by simp [renderStack, joinSep, hnm]
      rw [h1, Dir, dirPart_name name hsep]
      decide
  | cons top rest =>
    rw [hst] at hgood
    have hne : top :: rest ≠ [] := by simp
    have hrev : (top :: rest).reverse ≠ [] := by simp
    have hj : joinSep (name :: top :: rest).reverse
        = joinSep (top :: rest).reverse ++ '/' :: name := by
      rw [List.reverse_cons, joinSep_concat _ _ hrev]
    have hnil : joinSep (top :: rest).reverse ++ '/' :: name ≠ [] := by simp
    have hb : joinSep (top :: rest).reverse ≠ [] :=
      joinSep_ne_nil _ hrev
        (fun e he => (GoodStack_mem _ _ hgood e (List.mem_reverse.1 he)).1)
    have hrender : renderStack (isRooted s0) (name :: top :: rest)
        = renderStack (isRooted s0) (top :: rest) ++ '/' :: name := by
      cases hr : isRooted s0 with
      | true => simp only [renderStack, if_true, hj, List.cons_append]
      | false => simp only [renderStack, Bool.false_eq_true, if_false, hj, hnil, hb]
    rw [hrender, Dir, dirPart_append _ name hsep, Clean_render_sep _ _ hgood hne]

/-- The directory of a path joined from a root, a non-empty directory and a
file name is the join of the root and the directory. -/
theorem Dir_Join (baseDir dir name : Str) (hdir : dir ≠ []) (hname : IsFileName name) :
    Dir (Join [baseDir, dir, name]) = Join [baseDir, dir] := by
  by_cases hb : baseDir = []
  · subst hb
    have h1 : Join [[], dir, name] = Clean (dir ++ '/' :: name) := by
      simp [Join, List.dropWhile_cons, hdir, joinSep]
    have h2 : Join [[], dir] = Clean dir := by
      simp [Join, List.dropWhile_cons, hdir, joinSep]
    rw [h1, h2, Dir_Clean_append dir name hdir hname]
  · have h1 : Join [baseDir, dir, name] = Clean ((baseDir ++ '/' :: dir) ++ '/' :: name) := by
      simp [Join, List.dropWhile_cons, hb, joinSep]
    have h2 : Join [baseDir, dir] = Clean (baseDir ++ '/' :: dir) := by
      simp [Join, List.dropWhile_cons, hb, joinSep]
    rw [h1, h2, Dir_Clean_append _ name (by simp) hname]

theorem Base_no_sep (path : Str) : Base path = ['/'] ∨ '/' ∉ Base path := by
  unfold Base
  by_cases hp : path = []
  · right; simp [hp]
  · simp only [if_neg hp]
    by_cases hl : ((path.reverse.dropWhile (· = '/')).takeWhile (· ≠ '/')).reverse = []
    · left; rw [if_pos hl]
    · right
      rw [if_neg hl]
      intro hmem
      have := List.mem_takeWhile_imp (List.mem_reverse.1 hmem)
      simp at this

theorem Base_ne_nil (path : Str) : Base path ≠ [] := by
  unfold Base
  by_cases hp : path = []
  · simp [hp]
  · simp only [if_neg hp]
    by_cases hl : ((path.reverse.dropWhile (· = '/')).takeWhile (· ≠ '/')).reverse = []
    · rw [if_pos hl]; simp
    · rw [if_neg hl]; exact hl

theorem digitChar_ne_sep : ∀ d, d < 10 → digitChar d ≠ '/' ∧ digitChar d ≠ '.' := by decide

theorem digitsAux_no_sep (fuel : Nat) : ∀ (n : Nat) (acc : Str),
    (∀ c ∈ acc, c ≠ '/') → ∀ c ∈ digitsAux fuel n acc, c ≠ '/' := by
  induction fuel with
  | zero => intro n acc hacc; exact hacc
  | succ f ih =>
    intro n acc hacc
    unfold digitsAux
    by_cases hn : n < 10
    · rw [if_pos hn]
      intro c hc
      rcases List.mem_cons.1 hc with h | h
      · rw [h]; exact (digitChar_ne_sep n hn).1
      · exact hacc c h
    · rw [if_neg hn]
      apply ih
      intro c hc
      rcases List.mem_cons.1 hc with h | h
      · rw [h]; exact (digitChar_ne_sep (n % 10) (Nat.mod_lt _ (by omega))).1
      · exact hacc c h

theorem itoa_no_sep (n : Nat) : '/' ∉ itoa n := by
  intro h
  exact digitsAux_no_sep (n + 1) n [] (by simp) '/' h rfl

/-- The names tried for a source whose own name is a file name are file names. -/
theorem attemptFilename_isFileName (filePath : Str) (hname : IsFileName (Base filePath))
    (n : Nat) :
    IsFileName (attemptFilename (TrimSuffix (Base filePath) (Ext filePath)) (Ext filePath) n) := by
  have hsplit := TrimSuffix_Base_Ext filePath
  by_cases hn : n = 0
  · subst hn
    simpa [attemptFilename, hsplit] using hname
  · have hpos : n > 0 := Nat.pos_of_ne_zero hn
    have hsep : '/' ∉ TrimSuffix (Base filePath) (Ext filePath) ∧ '/' ∉ Ext filePath := by
      have := hname.2.1
      rw [← hsplit] at this
      simpa using this
    have hmem : '-' ∈ attemptFilename (TrimSuffix (Base filePath) (Ext filePath))
        (Ext filePath) n := by
      simp [attemptFilename, hpos]
    refine ⟨?_, ?_, ?_, ?_⟩
    · intro h; rw [h] at hmem; simp at hmem
    · simp only [attemptFilename, hpos, if_true, List.mem_append, List.mem_cons, not_or]
      exact ⟨hsep.1, by decide, itoa_no_sep n, hsep.2⟩
    · intro h; rw [h] at hmem; simp at hmem
    · intro h; rw [h] at hmem; simp at hmem

theorem formatDate_ne_nil (date : Int × Nat × Nat) : formatDate date ≠ [] := by
  simp [formatDate]

/-! ## The day's directory -/

/-- The day of the year that `civilFromDays` computes is at most 365. -/
theorem dayOfYear_le (doe : Nat) (h : doe < 146097) :
    doe - (365 * ((doe - doe / 1460 + doe / 36524 - doe / 146096) / 365)
      + (doe - doe / 1460 + doe / 36524 - doe / 146096) / 365 / 4
      - (doe - doe / 1460 + doe / 36524 - doe / 146096) / 365 / 100) ≤ 365 := by
  generalize hyoe : (doe - doe / 1460 + doe / 36524 - doe / 146096) / 365 = y
  have hy : y ≤ 399 := by omega
  generalize hfd : doe / 36524 = f at *
  generalize hgd : doe / 146096 = g at *
  generalize hcd : y / 100 = c at *
  have hf : f ≤ 4 := by omega
  have hc : c ≤ 3 := by omega
  have hg : g ≤ 1 := by omega
  interval_cases f <;> interval_cases c <;> interval_cases g <;> omega

/-- The month that `civilFromDays` computes lies between 1 and 12 and the day
between 1 and 31. -/
theorem civilFromDays_range (days : Int) :
    1 ≤ (civilFromDays days).2.1 ∧ (civilFromDays days).2.1 ≤ 12 ∧
    1 ≤ (civilFromDays days).2.2 ∧ (civilFromDays days).2.2 ≤ 31 := by
  have hdoe : ((days + 306) - (days + 306) / 146097 * 146097).toNat < 146097 := by omega
  have hdoy := dayOfYear_le _ hdoe
  simp only [civilFromDays]
  generalize ((days + 306) - (days + 306) / 146097 * 146097).toNat = doe at *
  generalize doe - (365 * ((doe - doe / 1460 + doe / 36524 - doe / 146096) / 365)
      + (doe - doe / 1460 + doe / 36524 - doe / 146096) / 365 / 4
      - (doe - doe / 1460 + doe / 36524 - doe / 146096) / 365 / 100) = doy at *
  refine ⟨?_, ?_, ?_, ?_⟩
  · split <;> omega
  · split <;> omega
  · omega
  · omega

theorem digitsAux_length (fuel : Nat) : ∀ (n k : Nat) (acc : Str),
    n < 10 ^ k → 1 ≤ k → k ≤ fuel → (digitsAux fuel n acc).length ≤ k + acc.length := by
  induction fuel with
  | zero => intro n k acc _ h1 h2; omega
  | succ f ih =>
    intro n k acc hn h1 h2
    unfold digitsAux
    by_cases h10 : n < 10
    · rw [if_pos h10]; simp; omega
    · rw [if_neg h10]
      have hk : 2 ≤ k := by
        by_contra hk
        have : k = 1 := by omega
        subst this
        simp at hn
        omega
      obtain ⟨j, hj⟩ : ∃ j, k = j + 1 := ⟨k - 1, by omega⟩
      subst hj
      have hdiv : n / 10 < 10 ^ j := by
        rw [Nat.div_lt_iff_lt_mul (by omega)]
        rw [pow_succ] at hn
        exact hn
      have := ih (n / 10) j (digitChar (n % 10) :: acc) hdiv (by omega) (by omega)
      simp at this ⊢
      omega

/-- A number below `10 ^ k` has at most `k` digits. -/
theorem itoa_length (n k : Nat) (hn : n < 10 ^ k) (hk : 1 ≤ k) : (itoa n).length ≤ k := by
  unfold itoa
  by_cases hfuel : k ≤ n + 1
  · simpa using digitsAux_length (n + 1) n k [] hn hk hfuel
  · have h1 : n < 10 ^ (n + 1) :=
      lt_trans (Nat.lt_succ_self n) (Nat.lt_pow_self (by omega) (n + 1))
    have := digitsAux_length (n + 1) n (n + 1) [] h1 (by omega) (le_refl _)
    simp at this
    omega

/-- Zero-padding to `width` gives exactly `width` characters for a number of
at most `width` digits that is not negative. -/
theorem appendInt_length (x : Int) (width : Nat) (h0 : 0 ≤ x) (hw : 1 ≤ width)
    (hx : x.natAbs < 10 ^ width) : (appendInt x width).length = width := by
  have hlen := itoa_length x.natAbs width hx hw
  have hneg : ¬ x < 0 := by omega
  simp only [appendInt, if_neg hneg, List.length_append, List.length_replicate]
  omega

theorem targetDir_of_time (lib : Lib) (fs : FS) (filePath dir : Str) (t : Time)
    (htime : getTimeFromMediaFile lib fs filePath = (t, none))
    (hdir : getTargetDirectoryForFile lib fs filePath = (dir, none)) :
    dir = formatDate t.Date := by
  unfold getTargetDirectoryForFile at hdir
  rw [htime] at hdir
  by_cases hz : t.IsZero = true
  · simp [hz] at hdir
  · simp only [hz, Bool.false_eq_true, if_false, Prod.mk.injEq, and_true] at hdir
    rw [← hdir]
    rfl

/-- A resolved path lies in the day's directory under the root. -/
theorem Dir_of_resolved (lib : Lib) (fs : FS) (filePath baseDir p : Str) (t : Time)
    (htime : getTimeFromMediaFile lib fs filePath = (t, none))
    (hname : IsFileName (Base filePath))
    (hres : getTargetFilepath lib fs filePath baseDir = (p, none)) (hp : p ≠ []) :
    Dir p = Join [baseDir, formatDate t.Date] := by
  have hout := outcome_of_getTargetFilepath lib fs filePath baseDir p hp hres
  obtain ⟨dir, n, hdir, _, _, _, hpn, _⟩ := outcome_resolved_iff lib fs filePath baseDir p hout
  have hd := targetDir_of_time lib fs filePath dir t htime hdir
  subst hd
  rw [hpn, candidatePath]
  exact Dir_Join baseDir _ _ (formatDate_ne_nil _) (attemptFilename_isFileName filePath hname n)

/-- C5: two sources whose capture times fall on the same calendar day are
resolved, under the same destination root, into the same directory,
`destinationRoot/YYYY/MM/DD`, whatever their names (file names, that is, names
other than `/`, `.` and `..`), their contents and the state of the
destination: the directory of each returned path is the join of the root with
the year, zero-padded to four digits, and the month and the day, zero-padded
to two. -/
theorem same_day_same_directory (lib : Lib) (fs1 fs2 : FS) (src1 src2 baseDir p1 p2 : Str)
    (t1 t2 : Time)
    (htime1 : getTimeFromMediaFile lib fs1 src1 = (t1, none))
    (htime2 : getTimeFromMediaFile lib fs2 src2 = (t2, none))
    (hday : t1.Date = t2.Date)
    (hname1 : IsFileName (Base src1)) (hname2 : IsFileName (Base src2))
    (hres1 : getTargetFilepath lib fs1 src1 baseDir = (p1, none)) (hp1 : p1 ≠ [])
    (hres2 : getTargetFilepath lib fs2 src2 baseDir = (p2, none)) (hp2 : p2 ≠ []) :
    Dir p1 = Join [baseDir, formatDate t1.Date] ∧
    Dir p2 = Join [baseDir, formatDate t1.Date] ∧
    formatDate t1.Date
      = appendInt t1.Date.1 4 ++ '/' :: (appendInt t1.Date.2.1 2 ++ '/' :: appendInt t1.Date.2.2 2) ∧
    (0 ≤ t1.Date.1 → t1.Date.1 ≤ 9999 → (appendInt t1.Date.1 4).length = 4) ∧
    (appendInt t1.Date.2.1 2).length = 2 ∧
    (appendInt t1.Date.2.2 2).length = 2 := by
  have hrange := civilFromDays_range ((t1.sec + t1.offset) / 86400)
  refine ⟨Dir_of_resolved lib fs1 src1 baseDir p1 t1 htime1 hname1 hres1 hp1, ?_, rfl, ?_, ?_, ?_⟩
  · rw [hday]
    exact Dir_of_resolved lib fs2 src2 baseDir p2 t2 htime2 hname2 hres2 hp2
  · intro h0 h1
    exact appendInt_length _ 4 h0 (by omega) (by omega)
  · exact appendInt_length _ 2 (by omega) (by omega) (by
      have := hrange.2.1
      simp only [Time.Date]
      omega)
  · exact appendInt_length _ 2 (by omega) (by omega) (by
      have := hrange.2.2.2
      simp only [Time.Date]
      omega)

/-- C5 at `IMG_0001.JPG` and `DSC0042`, two photos of 2021-06-15 with different
names and contents: both go to `/out/2021/06/15`. -/
theorem same_day_same_directory_witness :
    Dir "/out/2021/06/15/IMG_0001.JPG".toList = "/out/2021/06/15".toList ∧
    Dir "/out/2021/06/15/DSC0042-1".toList = "/out/2021/06/15".toList := by
  have hw := same_day_same_directory exLib fsFresh fsNoExt srcA srcC outDir
    "/out/2021/06/15/IMG_0001.JPG".toList "/out/2021/06/15/DSC0042-1".toList
    { sec := 63759312000, nsec := 0, offset := 0 } { sec := 63759312000, nsec := 0, offset := 0 }
    (by decide) (by decide) (by decide) (by unfold IsFileName; decide)
    (by unfold IsFileName; decide) (by decide) (by decide) (by decide) (by decide)
  exact ⟨hw.1.trans (by decide), hw.2.1.trans (by decide)⟩

end PhotoOrganiser
